import Mathlib

/-!
# Verification of the github-issues-checker issue-processing core

Shallow embedding of the repository's issue-processing logic:

* `copilot_handler._parse_analysis` / the inline label parser of
  `github_handler.get_existing_analysis` (they are textually identical),
* `github_handler.get_existing_analysis` over an issue's comment list,
* `copilot_handler.analyze_issue` as a function of the assistant response,
* `github_handler.add_label` over a repository label set,
* `git_handler.commit_changes` as a function of the git command exit codes,
* `check_issues.process_issue` as a trace-producing interpreter over an
  environment that supplies the outcome (value or raised exception) of every
  gateway call, in call order.

Python string operations are modelled by structurally recursive functions on
`List Char` (`String.data`), so every definition evaluates by `decide`/`rfl`:
`Py.contains` is `in`, `Py.strip` is `str.strip`, `Py.beforeFirst s p` is
`s.split(p)[0]`, `Py.afterFirst s p` is `s.split(p, 1)[1]` (call sites guard
on occurrence), `Py.splitLines` is `str.split('\n')`, `Py.replace` is
`str.replace`, `Py.lower` is ASCII `str.lower`.
-/

namespace IssuesChecker

/-- `pat.isPrefixOf s` on character lists (Python `str.startswith`). -/
def listStartsWith : List Char → List Char → Bool
  | [], _ => true
  | _ :: _, [] => false
  | p :: ps, c :: cs => p == c && listStartsWith ps cs

/-- Python `pat in s` on character lists. -/
def listContains (pat : List Char) : List Char → Bool
  | [] => listStartsWith pat []
  | c :: cs => listStartsWith pat (c :: cs) || listContains pat cs

/-- Split at the first occurrence of `pat`: `some (before, after)` when `pat`
occurs in `s`, `none` otherwise. -/
def listSplitFirst (pat : List Char) : List Char → Option (List Char × List Char)
  | [] => if listStartsWith pat [] then some ([], []) else none
  | c :: cs =>
    if listStartsWith pat (c :: cs) then some ([], (c :: cs).drop pat.length)
    else
      match listSplitFirst pat cs with
      | some (pre, post) => some (c :: pre, post)
      | none => none

/-- Python `str.replace` (non-overlapping, left to right), with explicit fuel
so that the recursion is structural; `fuel = s.length` always suffices. -/
def listReplaceFuel (pat repl : List Char) : Nat → List Char → List Char
  | 0, s => s
  | _ + 1, [] => []
  | n + 1, c :: cs =>
    if listStartsWith pat (c :: cs) then
      repl ++ listReplaceFuel pat repl n (cs.drop (pat.length - 1))
    else
      c :: listReplaceFuel pat repl n cs

/-- Python `str.split('\n')`. -/
def listSplitNl : List Char → List (List Char)
  | [] => [[]]
  | c :: cs =>
    if c == '\n' then [] :: listSplitNl cs
    else
      match listSplitNl cs with
      | l :: ls => (c :: l) :: ls
      | [] => [[c]]

/-- Characters removed by Python `str.strip()` (the ASCII ones; the strings
this program strips contain no exotic Unicode whitespace). -/
def isPySpace (c : Char) : Bool :=
  c == ' ' || c == '\t' || c == '\n' || c == '\r' || c == '\x0b' || c == '\x0c'

namespace Py

/-- Python `pat in s`. -/
def contains (s pat : String) : Bool := listContains pat.data s.data

/-- Python `s.startswith(pat)`. -/
def startsWith (s pat : String) : Bool := listStartsWith pat.data s.data

/-- Python `s.strip()`. -/
def strip (s : String) : String :=
  ⟨(((s.data.dropWhile isPySpace).reverse).dropWhile isPySpace).reverse⟩

/-- Python `s.split(pat)[0]`: the prefix before the first occurrence of
`pat`, or `s` itself when `pat` does not occur. -/
def beforeFirst (s pat : String) : String :=
  match listSplitFirst pat.data s.data with
  | some (pre, _) => ⟨pre⟩
  | none => s

/-- Python `s.split(pat, 1)[1]`: the suffix after the first occurrence of
`pat`; call sites guard on `pat in s` (absent `pat` yields `""`). -/
def afterFirst (s pat : String) : String :=
  match listSplitFirst pat.data s.data with
  | some (_, post) => ⟨post⟩
  | none => ""

/-- Python `s.split('\n')`. -/
def splitLines (s : String) : List String :=
  (listSplitNl s.data).map (fun l => ⟨l⟩)

/-- Python `s.replace(pat, repl)`. -/
def replace (s pat repl : String) : String :=
  ⟨listReplaceFuel pat.data repl.data s.data.length s.data⟩

/-- Python `s[1:]`. -/
def drop1 (s : String) : String := ⟨s.data.drop 1⟩

/-- Python `s[:n]`. -/
def take (n : Nat) (s : String) : String := ⟨s.data.take n⟩

/-- ASCII lowering of one character (what Python `str.lower` does on the
ASCII configuration strings this program lowers). -/
def lowerChar (c : Char) : Char :=
  if 'A' ≤ c && c ≤ 'Z' then Char.ofNat (c.toNat + 32) else c

/-- Python `s.lower()` on ASCII strings. -/
def lower (s : String) : String := ⟨s.data.map lowerChar⟩

end Py

/-- The analysis-comment header marker, `"## 🤖 自動分析結果"`
(`check_issues.py` line 97, `github_handler.py` line 72). -/
def analysisMarker : String := "## 🤖 自動分析結果"

/-- `Config.BOT_PROCESSED_LABEL` (`config.py` line 27). -/
def BOT_PROCESSED_LABEL : String := "bot-processed"

/-- One pass of the suggested-label parsing loop shared (textually identical)
by `copilot_handler._parse_analysis` (lines 211-232) and
`github_handler.get_existing_analysis` (lines 93-109).  Arguments: remaining
lines and the Python `in_labels_section` flag. -/
def parseLabelsLines : List String → Bool → List String
  | [], _ => []
  | line :: rest, inSec =>
    if Py.contains line "## 提案ラベル" || Py.contains line "##提案ラベル" then
      parseLabelsLines rest true
    else
      let inSec := if Py.startsWith line "##" then false else inSec
      if inSec && Py.startsWith (Py.strip line) "-" then
        let label := Py.strip (Py.drop1 (Py.strip line))
        if label ≠ "" then
          let label := Py.replace label "**" ""
          let label :=
            if Py.contains label "（" then Py.strip (Py.beforeFirst label "（")
            else if Py.contains label "(" then Py.strip (Py.beforeFirst label "(")
            else label
          if label ≠ "" then label :: parseLabelsLines rest inSec
          else parseLabelsLines rest inSec
        else parseLabelsLines rest inSec
      else parseLabelsLines rest inSec

/-- `copilot_handler._parse_analysis` (copilot_handler.py lines 204-234),
restricted to its effect: the suggested-label list extracted from an analysis
text.  (In Python it stores this list into `result["suggested_labels"]`.) -/
def parse_analysis (analysis : String) : List String :=
  parseLabelsLines (Py.splitLines analysis) false

/-- A forge comment as `process_issue`/`get_existing_analysis` see it:
author login, creation timestamp, body text. -/
structure IssueComment where
  author : String
  created_at : String
  body : String
deriving DecidableEq, Repr

/-- The dict returned by `github_handler.get_existing_analysis` (lines
111-114).  The Python dict has exactly the keys `"analysis"` and
`"suggested_labels"`; the other fields model dict keys that callers read with
`.get(key, default)` — `none` means the key is absent (which is what the code
always produces). -/
structure ExistingAnalysis where
  analysis : String
  suggested_labels : List String
  has_new_user_comments : Option Bool := none
  new_user_comments : Option (List IssueComment) := none
  insufficient_info : Option Bool := none
  completed : Option Bool := none
deriving DecidableEq, Repr

/-- `github_handler.get_existing_analysis` (github_handler.py lines 62-120)
over the issue's comment list (in the order the forge API yields them, oldest
first): the first comment whose body contains `analysisMarker` is taken; its
body after the marker, truncated before `"---"`, stripped, is the analysis
text; labels are parsed with the inline copy of the label-parsing loop.  The
returned dict has only the `analysis` and `suggested_labels` keys. -/
def get_existing_analysis : List IssueComment → Option ExistingAnalysis
  | [] => none
  | c :: rest =>
    if Py.contains c.body analysisMarker then
      let body := c.body
      let body := if Py.contains body analysisMarker then Py.afterFirst body analysisMarker else body
      let body := if Py.contains body "---" then Py.beforeFirst body "---" else body
      let analysis_text := Py.strip body
      some { analysis := analysis_text
             suggested_labels := parseLabelsLines (Py.splitLines analysis_text) false }
    else get_existing_analysis rest

/-- The abstracted assistant response inside `copilot_handler.analyze_issue`:
either a response object with a `content` attribute, a response without
content (the `else` at line 132), an `asyncio.TimeoutError`, or any other
exception (caught at line 143). -/
inductive CopilotResponse where
  | content (text : String)
  | noContent
  | timeout
  | error (msg : String)
deriving DecidableEq, Repr

/-- The result dict of `copilot_handler.analyze_issue` (lines 102-108). -/
structure AnalysisResult where
  analysis : String
  suggested_labels : List String
  action_plan : String
  completed : Bool
  insufficient_info : Bool
deriving DecidableEq, Repr

/-- Fallback analysis text at copilot_handler.py line 134. -/
def msgNoContent : String := "分析結果を取得できませんでした。Copilot SDKの応答がありませんでした。"

/-- Fallback analysis text at copilot_handler.py line 141. -/
def msgTimeout : String := "分析がタイムアウトしました。issueが複雑すぎる可能性があります。"

/-- `copilot_handler.analyze_issue` (copilot_handler.py lines 91-148) as a
function of the assistant response outcome.  Field updates follow the Python
control flow: on content, `completed := true`, then the `INSUFFICIENT_INFO`
check may flip `insufficient_info`/`completed`, then `_parse_analysis` fills
`suggested_labels`; `_parse_analysis` also runs on the no-content fallback
text; the timeout and exception handlers only set `analysis` and leave
`completed`/`insufficient_info`/`suggested_labels` at their initial values. -/
def analyze_issue (resp : CopilotResponse) : AnalysisResult :=
  let base : AnalysisResult :=
    { analysis := "", suggested_labels := [], action_plan := ""
      completed := false, insufficient_info := false }
  match resp with
  | .content text =>
    let r := { base with analysis := text, completed := true }
    let r :=
      if Py.contains r.analysis "INSUFFICIENT_INFO" then
        { r with insufficient_info := true, completed := false }
      else r
    { r with suggested_labels := parse_analysis r.analysis }
  | .noContent =>
    let r := { base with analysis := msgNoContent, completed := false }
    { r with suggested_labels := parse_analysis r.analysis }
  | .timeout => { base with analysis := msgTimeout, completed := false }
  | .error m => { base with analysis := "分析中にエラーが発生しました: " ++ m, completed := false }

/-! ## The `process_issue` interpreter

`check_issues.process_issue` is embedded as a trace-producing interpreter.
Every gateway call (forge API, git, assistant) is a suspension point whose
outcome — a returned value or a raised exception — is supplied by an
`Env`: a family of functions indexed by the global call counter, so repeated
calls to the same operation may give different outcomes, exactly as in a real
run.  Each call appends an `Event` (arguments and outcome) to the trace. -/

/-- Outcome of one gateway call: a returned value or a raised exception
(Python exceptions carry no information the control flow uses). -/
inductive Exc (α : Type) where
  | ok (a : α)
  | exn
deriving DecidableEq, Repr

/-- The dict returned by `copilot_handler.implement_fix` /
`implement_fix_with_retry` (lines 260-264, 382-386). -/
structure ImplementResult where
  success : Bool
  message : String
  files_modified : List String := []
deriving DecidableEq, Repr

/-- One gateway call as recorded in the run trace: the call's distinguishing
arguments and its outcome. -/
inductive Event where
  | getExistingAnalysis (res : Exc (Option ExistingAnalysis))
  | getRepositoryLabels (res : Exc (List String))
  | analyzeIssue (body : String) (labels : List String) (res : Exc AnalysisResult)
  | addComment (text : String) (res : Exc Bool)
  | addLabel (name : String) (res : Exc Bool)
  | cloneRepository (res : Exc (Option String))
  | checkoutBranch (branch : String) (res : Exc Bool)
  | createBranch (branch : String) (res : Exc (Option String))
  | implementFix (res : Exc ImplementResult)
  | implementFixRetry (note : String) (res : Exc ImplementResult)
  | commitChanges (message : String) (res : Exc Bool)
  | pushBranch (branch : String) (res : Exc Bool)
  | createPullRequest (title : String) (body : String) (res : Exc (Option String))
  | cleanupRepository (res : Exc Unit)
deriving DecidableEq, Repr

/-- The environment: outcome of each gateway operation at each global call
index.  `process_issue` consults the operation named by the current program
point at the current counter value. -/
structure Env where
  getExistingAnalysis : Nat → Exc (Option ExistingAnalysis)
  getRepositoryLabels : Nat → Exc (List String)
  analyzeIssue : Nat → String → List String → Exc AnalysisResult
  addComment : Nat → String → Exc Bool
  addLabel : Nat → String → Exc Bool
  cloneRepository : Nat → Exc (Option String)
  checkoutBranch : Nat → String → Exc Bool
  createBranch : Nat → String → Exc (Option String)
  implementFix : Nat → Exc ImplementResult
  implementFixWithRetry : Nat → String → Exc ImplementResult
  commitChanges : Nat → String → Exc Bool
  pushBranch : Nat → String → Exc Bool
  createPullRequest : Nat → String → String → Exc (Option String)
  cleanupRepository : Nat → Exc Unit

/-- Interpreter state: global call counter and the chronological event
trace. -/
structure PState where
  k : Nat
  trace : List Event
deriving DecidableEq, Repr

/-- Result of running a fragment of the Python function body: a normal value,
an executed `return b` statement unwinding to the function boundary, or an
uncaught exception unwinding to the nearest handler. -/
inductive POut (α : Type) where
  | val (a : α)
  | ret (b : Bool)
  | exn
deriving DecidableEq, Repr

/-- A fragment of `process_issue`'s body: state in, `POut` and state out. -/
def P (α : Type) : Type := PState → POut α × PState

/-- Sequencing: a `return` or an exception skips the continuation. -/
def P.bind {α β : Type} (m : P α) (f : α → P β) : P β := fun s =>
  match m s with
  | (.val a, s') => f a s'
  | (.ret b, s') => (.ret b, s')
  | (.exn, s') => (.exn, s')

instance : Monad P where
  pure a := fun s => (.val a, s)
  bind := P.bind

/-- A Python `return b` statement. -/
def pyReturn {α : Type} (b : Bool) : P α := fun s => (.ret b, s)

/-- One gateway call: record the event (arguments and outcome), advance the
call counter, yield the value or start exception unwinding. -/
def gcall {α : Type} (mk : Exc α → Event) (f : Nat → Exc α) : P α := fun s =>
  let res := f s.k
  let s' : PState := ⟨s.k + 1, s.trace ++ [mk res]⟩
  match res with
  | .ok a => (.val a, s')
  | .exn => (.exn, s')

/-- `github_handler.add_label(issue, Config.BOT_PROCESSED_LABEL)`. -/
def addLabelBot (env : Env) : P Bool :=
  gcall (Event.addLabel BOT_PROCESSED_LABEL) (fun k => env.addLabel k BOT_PROCESSED_LABEL)

/-- The recurring exit idiom of `process_issue`:
`github_handler.add_label(issue, Config.BOT_PROCESSED_LABEL)` followed by
`return b`. -/
def markAndReturn {α : Type} (env : Env) (b : Bool) : P α := do
  let _ ← addLabelBot env
  pyReturn b

/-- check_issues.py line 60: strip the `INSUFFICIENT_INFO` marker from the
analysis text. -/
def stripSentinel (analysis : String) : String :=
  Py.strip (Py.replace analysis "INSUFFICIENT_INFO" "")

/-- Python `try: body / finally: fin` — `fin` runs after `body` whether it
produced a value, a `return`, or an exception; an exception (or `return`)
raised by `fin` itself supersedes `body`'s outcome. -/
def pyFinally {α : Type} (body : P α) (fin : P Unit) : P α := fun s =>
  let (o₁, s₁) := body s
  let (o₂, s₂) := fin s₁
  match o₂ with
  | .val _ => (o₁, s₂)
  | .ret b => (.ret b, s₂)
  | .exn => (.exn, s₂)

/-- The issue fields `process_issue` reads into `issue_data`
(check_issues.py lines 20-26); `body` is already `issue.body or ""`. -/
structure IssueData where
  title : String
  body : String
  number : Nat
  repo : String
  url : String
deriving DecidableEq, Repr

/-- The re-analysis section header (check_issues.py line 41) followed by one
block per new user comment (line 43). -/
def newCommentsText (cs : List IssueComment) : String :=
  cs.foldl
    (fun acc c => acc ++ "\n### " ++ c.author ++ " (" ++ c.created_at ++ "):\n" ++ c.body ++ "\n")
    "\n\n## 追加されたユーザーコメント:\n"

/-- The insufficient-information comment template (check_issues.py
lines 62-70) around the cleaned analysis text. -/
def insufficientInfoComment (analysisText : String) : String :=
  "## ⚠️ 情報不足により処理を中断しました\n\n" ++ analysisText ++
  "\n\n---\n**次のステップ**: 上記の情報を追加していただければ、再度自動処理を試みます。\n\n*この分析は GitHub Copilot SDK により自動生成されました*\n"

/-- The analysis comment template (check_issues.py lines 97-103). -/
def analysisComment (analysisText : String) : String :=
  "## 🤖 自動分析結果\n\n" ++ analysisText ++
  "\n\n---\n*この分析は GitHub Copilot SDK により自動生成されました*\n"

/-- The corrective note passed to `implement_fix_with_retry`
(check_issues.py line 170). -/
def retryNote : String :=
  "前回の試行ではファイルが変更されませんでした。このissueには実装が必要です。必ずファイルを編集してください。"

/-- The "no code changes were necessary" comment (check_issues.py
lines 175, 183). -/
def noChangesComment : String :=
  "⚠️ Copilotによる分析は完了しましたが、コードの変更は必要ありませんでした。"

/-- The PR-link comment (check_issues.py line 233). -/
def prLinkComment (url : String) : String :=
  "✅ 修正を実装してプルリクエストを作成しました: " ++ url

/-- The commit message (check_issues.py lines 154-159). -/
def commitMessageText (issue : IssueData) (analysisText : String) : String :=
  "Fix: " ++ issue.title ++ " (#" ++ toString issue.number ++ ")\n\n" ++
  Py.take 500 analysisText ++ "\n\nCloses #" ++ toString issue.number ++ "\n"

/-- The PR body (check_issues.py lines 198-221); note it embeds the FIRST
implementation attempt's message. -/
def prBodyText (issue : IssueData) (analysisText implMessage : String) : String :=
  "## 概要\nこのPRはissue #" ++ toString issue.number ++ " に対する自動対応です。\n\n## 関連Issue\nCloses #" ++
  toString issue.number ++ "\n\n## 分析結果\n" ++ analysisText ++ "\n\n## 実装内容\n" ++ implMessage ++
  "\n\n---\n⚠️ **重要**: このPRは自動生成されました。**必ずコードレビューを行ってください。**\n\n### レビュー時の確認ポイント\n- [ ] 実装が要件を満たしているか\n- [ ] コードの品質は適切か\n- [ ] テストは必要か、テストは含まれているか\n- [ ] セキュリティ上の問題はないか\n- [ ] パフォーマンスへの影響はないか\n\n*Generated by GitHub Copilot SDK*\n"

/-- Step 3's loop (check_issues.py lines 113-116): apply each suggested
label; the boolean result only drives a log line. -/
def labelLoop (env : Env) : List String → P Unit
  | [] => pure ()
  | l :: ls => do
    let _ ← gcall (Event.addLabel l) (fun k => env.addLabel k l)
    labelLoop env ls

/-- Steps 8-9 (check_issues.py lines 189-239): push the branch, open the
pull request, comment the PR link; every exit applies the terminal marker.
`implMessage` is the FIRST implementation attempt's message (line 208). -/
def stepS8S9 (env : Env) (issue : IssueData) (analysisText implMessage : String) : P Bool := do
  let branchName := "fix/issue-" ++ toString issue.number
  let pushed ← gcall (Event.pushBranch branchName) (fun k => env.pushBranch k branchName)
  if !pushed then markAndReturn env false
  let prTitle := "Fix: " ++ issue.title ++ " (#" ++ toString issue.number ++ ")"
  let prBody := prBodyText issue analysisText implMessage
  let prUrl ← gcall (Event.createPullRequest prTitle prBody)
    (fun k => env.createPullRequest k prTitle prBody)
  match prUrl with
  | some url => do
    let _ ← gcall (Event.addComment (prLinkComment url)) (fun k => env.addComment k (prLinkComment url))
    markAndReturn env true
  | none => markAndReturn env false

/-- Steps 5-9 (check_issues.py lines 128-239): the body of the inner `try`
— branch checkout, remote branch creation (result unused), implementation,
commit with single retry, then push and pull request. -/
def stepS5toS9 (env : Env) (issue : IssueData) (analysisText : String) : P Bool := do
  let branchName := "fix/issue-" ++ toString issue.number
  let co ← gcall (Event.checkoutBranch branchName) (fun k => env.checkoutBranch k branchName)
  if !co then markAndReturn env false
  let _ ← gcall (Event.createBranch branchName) (fun k => env.createBranch k branchName)
  let impl ← gcall Event.implementFix env.implementFix
  if !impl.success then markAndReturn env false
  let commitMessage := commitMessageText issue analysisText
  let c1 ← gcall (Event.commitChanges commitMessage) (fun k => env.commitChanges k commitMessage)
  if !c1 then
    let retry ← gcall (Event.implementFixRetry retryNote)
      (fun k => env.implementFixWithRetry k retryNote)
    if !retry.success then
      let _ ← gcall (Event.addComment noChangesComment) (fun k => env.addComment k noChangesComment)
      markAndReturn env false
    let c2 ← gcall (Event.commitChanges commitMessage) (fun k => env.commitChanges k commitMessage)
    if !c2 then
      let _ ← gcall (Event.addComment noChangesComment) (fun k => env.addComment k noChangesComment)
      markAndReturn env false
  stepS8S9 env issue analysisText impl.message

/-- Steps 3-9 (check_issues.py lines 111-244), shared by the reuse and the
fresh-analysis paths: labeling, clone (failure is terminal), then the inner
`try`/`finally` with the working-copy cleanup. -/
def stepS3toS9 (env : Env) (issue : IssueData) (analysisText : String)
    (suggestedLabels : List String) : P Bool := do
  labelLoop env suggestedLabels
  let repoPath ← gcall Event.cloneRepository env.cloneRepository
  match repoPath with
  | none => markAndReturn env false
  | some _ =>
    pyFinally (stepS5toS9 env issue analysisText)
      (do let _ ← gcall Event.cleanupRepository env.cleanupRepository; pure ())

/-- Steps 0b-2 (check_issues.py lines 46-109) for a fresh or re-analysis,
given the (possibly augmented) task body: fetch the repository labels, call
the assistant, short-circuit on insufficient information, bail out on an
incomplete analysis or a failed comment post, then fall through to step 3. -/
def freshAnalysisPath (env : Env) (issue : IssueData) (taskBody : String) : P Bool := do
  let availableLabels ← gcall Event.getRepositoryLabels env.getRepositoryLabels
  let ar ← gcall (Event.analyzeIssue taskBody availableLabels)
    (fun k => env.analyzeIssue k taskBody availableLabels)
  if ar.insufficient_info then
    let analysisText := stripSentinel ar.analysis
    let _ ← gcall (Event.addComment (insufficientInfoComment analysisText))
      (fun k => env.addComment k (insufficientInfoComment analysisText))
    let _ ← gcall (Event.addLabel "needs-more-info") (fun k => env.addLabel k "needs-more-info")
    markAndReturn env false
  if !ar.completed then markAndReturn env false
  let analysisText := ar.analysis
  let suggestedLabels := ar.suggested_labels
  let commentOk ← gcall (Event.addComment (analysisComment analysisText))
    (fun k => env.addComment k (analysisComment analysisText))
  if !commentOk then markAndReturn env false
  stepS3toS9 env issue analysisText suggestedLabels

/-- The body of the outer `try` of `process_issue` (check_issues.py lines
29-244).  Step 0: look up the existing analysis; reuse it unless the dict
says there are new user comments (the key is read with `.get(key, False)` /
`.get(key, [])`); otherwise augment the task body with the new comments and
re-analyze. -/
def processIssueBody (env : Env) (issue : IssueData) : P Bool := do
  let existing ← gcall Event.getExistingAnalysis env.getExistingAnalysis
  match existing with
  | some ea =>
    if !(ea.has_new_user_comments.getD false) then
      stepS3toS9 env issue ea.analysis ea.suggested_labels
    else
      freshAnalysisPath env issue (issue.body ++ newCommentsText (ea.new_user_comments.getD []))
  | none => freshAnalysisPath env issue issue.body

/-- Fresh interpreter state at function entry. -/
def initialState : PState := ⟨0, []⟩

/-- `check_issues.process_issue` (lines 16-253): run the body; any uncaught
exception is converted to `False` after a best-effort application of the
terminal marker (lines 246-253; the marker call's own failure is swallowed). -/
def process_issue (env : Env) (issue : IssueData) : Bool × PState :=
  match processIssueBody env issue initialState with
  | (.val b, s) => (b, s)
  | (.ret b, s) => (b, s)
  | (.exn, s) => (false, (addLabelBot env s).2)

/-! ## Trace observations -/

/-- Is this event an `add_label` call with the given label name? -/
def Event.isAddLabelNamed (name : String) : Event → Bool
  | .addLabel n _ => n == name
  | _ => false

/-- Is this event an `add_comment` call with the given text? -/
def Event.isCommentWith (text : String) : Event → Bool
  | .addComment t _ => t == text
  | _ => false

/-- Is this event an `analyze_issue` call? -/
def Event.isAnalyze : Event → Bool
  | .analyzeIssue .. => true
  | _ => false

/-- Is this event an implementation attempt (`implement_fix` or
`implement_fix_with_retry`)? -/
def Event.isImplAttempt : Event → Bool
  | .implementFix _ => true
  | .implementFixRetry .. => true
  | _ => false

/-- Is this event an `implement_fix_with_retry` call? -/
def Event.isRetry : Event → Bool
  | .implementFixRetry .. => true
  | _ => false

/-- Is this event a push or a pull-request creation? -/
def Event.isPushOrPR : Event → Bool
  | .pushBranch .. => true
  | .createPullRequest .. => true
  | _ => false

/-- Is this event a clone or a local branch checkout? -/
def Event.isCloneOrCheckout : Event → Bool
  | .cloneRepository _ => true
  | .checkoutBranch .. => true
  | _ => false

/-- Number of `analyze_issue` calls in a trace. -/
def analyzeCount (tr : List Event) : Nat := tr.countP Event.isAnalyze

/-- Number of implementation attempts in a trace. -/
def implAttemptCount (tr : List Event) : Nat := tr.countP Event.isImplAttempt

/-- Number of retry implementation calls in a trace. -/
def retryCount (tr : List Event) : Nat := tr.countP Event.isRetry

/-- Number of push / pull-request calls in a trace. -/
def pushPRCount (tr : List Event) : Nat := tr.countP Event.isPushOrPR

/-- Number of clone / checkout calls in a trace. -/
def cloneCheckoutCount (tr : List Event) : Nat := tr.countP Event.isCloneOrCheckout

/-- The outcomes of the `commit_changes` calls of a trace, in order. -/
def commitResults (tr : List Event) : List (Exc Bool) :=
  tr.filterMap fun e =>
    match e with
    | .commitChanges _ r => some r
    | _ => none

/-- The trace records an attempt (successful or not) to apply the terminal
marker label. -/
def marksProcessed (tr : List Event) : Bool :=
  tr.any (Event.isAddLabelNamed BOT_PROCESSED_LABEL)

/-! ## `github_handler.add_label` -/

/-- Observable outcome of `github_handler.add_label`: the returned boolean,
the repository label set afterwards, and whether the label actually got
attached to the issue (`issue.add_to_labels` ran and succeeded). -/
structure AddLabelOutcome where
  result : Bool
  repoLabels : List String
  attached : Bool
deriving DecidableEq, Repr

/-- `github_handler.add_label` (github_handler.py lines 142-165) over the
repository's label set.  `repo.get_label(label)` raises `GithubException`
exactly when the label is absent from the repository; `createOk` / `addOk`
model whether `repo.create_label` / `issue.add_to_labels` succeed or raise a
`GithubException` (caught at lines 153 and 163 respectively, yielding
`False`). -/
def add_label (repoLabels : List String) (createOk addOk : Bool) (label : String) : AddLabelOutcome :=
  if repoLabels.contains label then
    if addOk then ⟨true, repoLabels, true⟩ else ⟨false, repoLabels, false⟩
  else if label == "bot-processed" then
    if createOk then
      let repoLabels' := repoLabels ++ ["bot-processed"]
      if addOk then ⟨true, repoLabels', true⟩ else ⟨false, repoLabels', false⟩
    else ⟨false, repoLabels, false⟩
  else ⟨false, repoLabels, false⟩

/-! ## `git_handler.commit_changes` -/

/-- Exit codes of the five git commands `commit_changes` runs, in order.
`_run_git_command` (git_handler.py lines 18-34) never raises: a subprocess
timeout or any other exception is converted to exit code `1`. -/
structure GitCmdResults where
  configNameExit : Nat
  configEmailExit : Nat
  addAllExit : Nat
  diffStagedExit : Nat
  commitExit : Nat
deriving DecidableEq, Repr

/-- `git_handler.commit_changes` (git_handler.py lines 90-128): the two
`git config` results are ignored; a failed `git add -A` yields `False`;
`git diff --staged --quiet` exiting `0` (nothing staged) yields `False`;
a failed `git commit` yields `False`; otherwise `True`. -/
def commit_changes (r : GitCmdResults) : Bool :=
  if r.addAllExit ≠ 0 then false
  else if r.diffStagedExit = 0 then false
  else if r.commitExit ≠ 0 then false
  else true

/-! ## `Config.DISABLE_COPILOT` -/

/-- `Config.DISABLE_COPILOT` (config.py line 22) as a function of the OS
environment: `os.getenv("DISABLE_COPILOT", "false").lower() in
("true", "1", "yes")`. -/
def DISABLE_COPILOT (getenv : String → Option String) : Bool :=
  ["true", "1", "yes"].contains (Py.lower ((getenv "DISABLE_COPILOT").getD "false"))

/-! ## Concrete fixtures -/

/-- A sample issue. -/
def sampleIssue : IssueData :=
  { title := "Sample bug", body := "It crashes on start", number := 7
    repo := "o/r", url := "https://example.invalid/o/r/issues/7" }

/-- A completed, sufficient analysis result. -/
def arCompleted (analysis : String) (labels : List String) : AnalysisResult :=
  { analysis := analysis, suggested_labels := labels, action_plan := ""
    completed := true, insufficient_info := false }

/-- An insufficient-information analysis result (as `analyze_issue` produces
it: the sentinel flips `completed` off). -/
def arInsufficient (analysis : String) : AnalysisResult :=
  { analysis := analysis, suggested_labels := [], action_plan := ""
    completed := false, insufficient_info := true }

/-- Environment in which every call succeeds along the reuse path up to a
clone failure; the base for the concrete scenarios below. -/
def baseEnv : Env where
  getExistingAnalysis := fun _ => .ok none
  getRepositoryLabels := fun _ => .ok ["bug"]
  analyzeIssue := fun _ _ _ => .ok (arCompleted "分析結果です" ["bug"])
  addComment := fun _ _ => .ok true
  addLabel := fun _ _ => .ok true
  cloneRepository := fun _ => .ok none
  checkoutBranch := fun _ _ => .ok true
  createBranch := fun _ _ => .ok (some "fix/issue-7")
  implementFix := fun _ => .ok ⟨true, "implemented", []⟩
  implementFixWithRetry := fun _ _ => .ok ⟨true, "implemented again", []⟩
  commitChanges := fun _ _ => .ok true
  pushBranch := fun _ _ => .ok true
  createPullRequest := fun _ _ _ => .ok (some "https://example.invalid/o/r/pull/8")
  cleanupRepository := fun _ => .ok ()

/-- C1 fixture: the bot's stored analysis comment. -/
def c1AnalysisComment : IssueComment :=
  { author := "github-actions[bot]", created_at := "2024-05-01T00:00:00Z"
    body := "## 🤖 自動分析結果\n\nバグの可能性があります。\n\n## 提案ラベル\n- bug\n\n---\n*この分析は GitHub Copilot SDK により自動生成されました*" }

/-- C1 fixture: a later comment from a non-bot author. -/
def c1UserComment : IssueComment :=
  { author := "alice", created_at := "2024-05-02T00:00:00Z"
    body := "再現手順を追記しました。" }

/-- C1 fixture: the issue's comment history — a prior bot analysis comment
followed by one later non-bot comment. -/
def c1Comments : List IssueComment := [c1AnalysisComment, c1UserComment]

/-- C1 environment: `get_existing_analysis` is fed the real embedded comment
scan over `c1Comments` (the composition `process_issue` performs at
check_issues.py line 31). -/
def c1Env : Env :=
  { baseEnv with getExistingAnalysis := fun _ => .ok (get_existing_analysis c1Comments) }

/-- C3 fixture: the oldest bot analysis comment. -/
def c3OlderAnalysis : IssueComment :=
  { author := "github-actions[bot]", created_at := "2024-05-01T00:00:00Z"
    body := "## 🤖 自動分析結果\n\n古い分析\n\n---\nfooter" }

/-- C3 fixture: a more recent bot analysis comment. -/
def c3NewerAnalysis : IssueComment :=
  { author := "github-actions[bot]", created_at := "2024-05-03T00:00:00Z"
    body := "## 🤖 自動分析結果\n\n新しい分析\n\n---\nfooter" }

/-- C3 fixture: a non-bot comment after both analysis comments. -/
def c3UserComment : IssueComment :=
  { author := "alice", created_at := "2024-05-04T00:00:00Z", body := "追加情報です。" }

/-- C3 fixture: comment history, oldest first (the order the forge API
yields). -/
def c3Comments : List IssueComment := [c3OlderAnalysis, c3NewerAnalysis, c3UserComment]

/-- C6 fixture: an OS environment with `DISABLE_COPILOT=True`. -/
def c6Getenv : String → Option String :=
  fun k => if k = "DISABLE_COPILOT" then some "True" else none

/-- C2 witness environment: the very first gateway call raises. -/
def c2Env : Env :=
  { baseEnv with getExistingAnalysis := fun _ => .exn }

/-- C4/C10 witness scenario: reuse path, implementation succeeds but stages
nothing on both the first attempt and the retry. -/
def noopExisting : ExistingAnalysis :=
  { analysis := "既存の分析", suggested_labels := ["bug"] }

/-- C4 witness environment: both commit attempts report no staged changes. -/
def c4Env : Env :=
  { baseEnv with
    getExistingAnalysis := fun _ => .ok (some noopExisting)
    cloneRepository := fun _ => .ok (some "/tmp/github-issues-checker/o_r")
    commitChanges := fun _ _ => .ok false }

/-- C5 witness environment: fresh analysis signalling insufficient
information. -/
def c5Env : Env :=
  { baseEnv with
    analyzeIssue := fun _ _ _ => .ok (arInsufficient "INSUFFICIENT_INFO 詳細が不足しています") }

/-- C10 witness environment: like `c4Env` but reached through a distinct
repository path so the two claims' witnesses stay independent. -/
def c10Env : Env :=
  { baseEnv with
    getExistingAnalysis := fun _ => .ok (some noopExisting)
    cloneRepository := fun _ => .ok (some "/tmp/github-issues-checker/o_r2")
    commitChanges := fun _ _ => .ok false }

/-- C7 witness fixture: a one-element comment history with a stored
analysis. -/
def c7Comments : List IssueComment :=
  [{ author := "github-actions[bot]", created_at := "2024-05-01T00:00:00Z"
     body := "## 🤖 自動分析結果\n\n保存済みの分析\n\n---\nfooter" }]

/-- C7 witness fixture: the reconstructed analysis dict for `c7Comments`. -/
def c7Existing : ExistingAnalysis :=
  { analysis := "保存済みの分析", suggested_labels := [] }

/-! ## Claim theorems -/

/-- C9: the suggested-label parser, applied to an analysis text whose
suggested-labels section contains the bulleted entries `- bug`,
`- **enhancement**`, `- docs（説明）`, produces exactly
`["bug", "enhancement", "docs"]` — bold markers stripped, parenthetical
annotations removed, empty results dropped. -/
theorem parse_labels_roundtrip :
    parse_analysis "## 分析結果\n分析しました\n\n## 提案ラベル\n- bug\n- **enhancement**\n- docs（説明）\n\n## 対応方針\n修正します"
      = ["bug", "enhancement", "docs"] := by decide

/-- C3 (refuting evaluation): on a comment history holding two analysis-marker
comments and a later non-bot comment, `get_existing_analysis` derives its
result from the FIRST (oldest) marker comment — `"古い分析"`, not the most
recent `"新しい分析"` — and returns a dict with only the `analysis` and
`suggested_labels` keys: the `has_new_user_comments` / `new_user_comments`
fields the claim (and the caller at check_issues.py lines 33-42) expect are
absent (`none`). -/
theorem get_existing_analysis_first_match_no_new_comment_fields :
    Py.contains c3NewerAnalysis.body analysisMarker = true
  ∧ c3UserComment.author ≠ c3OlderAnalysis.author
  ∧ get_existing_analysis c3Comments =
      some { analysis := "古い分析", suggested_labels := []
             has_new_user_comments := none, new_user_comments := none
             insufficient_info := none, completed := none } := by decide

/-- C1 (refuting evaluation): for an issue whose history holds a prior bot
analysis comment followed by a later non-bot comment, `process_issue` —
composed with the real `get_existing_analysis` over that history — performs
ZERO `analyze_issue` calls (the claim requires exactly one re-analysis): the
stored dict never carries `has_new_user_comments`, so the reuse branch is
taken and the stored labels are applied verbatim. -/
theorem reanalysis_not_triggered_by_new_user_comment :
    Py.contains c1AnalysisComment.body analysisMarker = true
  ∧ c1UserComment.author ≠ c1AnalysisComment.author
  ∧ get_existing_analysis c1Comments =
      some { analysis := "バグの可能性があります。\n\n## 提案ラベル\n- bug"
             suggested_labels := ["bug"] }
  ∧ analyzeCount (process_issue c1Env sampleIssue).2.trace = 0
  ∧ (process_issue c1Env sampleIssue).2.trace.any (Event.isAddLabelNamed "bug") = true := by decide

/-- C6 (refuting evaluation): with `DISABLE_COPILOT=True` in the OS
environment the parsed flag is `true`, yet per-issue processing is unchanged
— `process_issue` never consults the flag (it is not even an input): on a
fresh issue it still invokes `analyze_issue` once and posts the ordinary
analysis comment instead of skipping analysis and posting a manual-attention
comment. -/
theorem disable_copilot_flag_ignored :
    DISABLE_COPILOT c6Getenv = true
  ∧ analyzeCount (process_issue baseEnv sampleIssue).2.trace = 1
  ∧ (process_issue baseEnv sampleIssue).2.trace.any
      (Event.isCommentWith (analysisComment "分析結果です")) = true := by decide

/-- C7: in every `AnalysisResult` produced by `analyze_issue`,
`insufficient_info = true` forces `completed = false` (the sentinel check at
copilot_handler.py lines 128-131 flips `completed` off whenever it sets
`insufficient_info`, and every other branch leaves `insufficient_info` at
`false`); and every analysis record reconstructed from a stored comment by
`get_existing_analysis` carries neither flag (the dict at github_handler.py
lines 111-114 has no such keys), so the mutual exclusion holds there
vacuously. -/
theorem insufficient_implies_not_completed :
    (∀ resp : CopilotResponse,
      (analyze_issue resp).insufficient_info = true → (analyze_issue resp).completed = false)
  ∧ (∀ (cs : List IssueComment) (ea : ExistingAnalysis),
      get_existing_analysis cs = some ea →
      ea.insufficient_info = none ∧ ea.completed = none) := by
  constructor
  · intro resp h
    cases resp with
    | content text =>
      simp only [analyze_issue] at h ⊢
      by_cases hc : Py.contains text "INSUFFICIENT_INFO"
      · simp [hc]
      · simp [hc] at h
    | noContent => simp [analyze_issue] at h
    | timeout => simp [analyze_issue] at h
    | error m => simp [analyze_issue] at h
  · intro cs
    induction cs with
    | nil => intro ea h; simp [get_existing_analysis] at h
    | cons c rest ih =>
      intro ea h
      rw [get_existing_analysis] at h
      split at h
      · rw [Option.some_inj] at h
        subst h
        exact ⟨rfl, rfl⟩
      · exact ih ea h

/-- C7 witness: the theorem applied at a concrete sentinel-bearing response
and at a concrete comment history. -/
theorem insufficient_implies_not_completed_witness :
    (analyze_issue (.content "INSUFFICIENT_INFO 詳細不足")).completed = false
  ∧ (c7Existing.insufficient_info = none ∧ c7Existing.completed = none) :=
  ⟨insufficient_implies_not_completed.1 (.content "INSUFFICIENT_INFO 詳細不足") (by decide),
   insufficient_implies_not_completed.2 c7Comments c7Existing (by decide)⟩

/-- C8: a label absent from the repository's label set is never attached —
`add_label` returns `false` and leaves everything unchanged — except the
terminal-marker label `"bot-processed"`, which is created in the repository
and then attached (github_handler.py lines 142-165). -/
theorem add_label_filters_unknown_labels :
    (∀ (repoLabels : List String) (createOk addOk : Bool) (label : String),
      repoLabels.contains label = false → label ≠ "bot-processed" →
      (add_label repoLabels createOk addOk label).result = false
      ∧ (add_label repoLabels createOk addOk label).attached = false
      ∧ (add_label repoLabels createOk addOk label).repoLabels = repoLabels)
  ∧ (∀ repoLabels : List String,
      repoLabels.contains "bot-processed" = false →
      (add_label repoLabels true true "bot-processed").result = true
      ∧ (add_label repoLabels true true "bot-processed").attached = true
      ∧ "bot-processed" ∈ (add_label repoLabels true true "bot-processed").repoLabels) := by
  constructor
  · intro repoLabels createOk addOk label habs hne
    have hbeq : (label == "bot-processed") = false := by
      simpa using hne
    have hmem : label ∉ repoLabels := by simpa using habs
    simp [add_label, hbeq, hmem]
  · intro repoLabels habs
    have hmem : "bot-processed" ∉ repoLabels := by simpa using habs
    simp [add_label, hmem]

/-- C8 witness: the theorem applied at a concrete repository label set, an
unknown label, and the absent marker label. -/
theorem add_label_filters_unknown_labels_witness :
    ((add_label ["bug"] true true "docs").result = false
     ∧ (add_label ["bug"] true true "docs").attached = false
     ∧ (add_label ["bug"] true true "docs").repoLabels = ["bug"])
  ∧ ((add_label ["bug"] true true "bot-processed").result = true
     ∧ (add_label ["bug"] true true "bot-processed").attached = true
     ∧ "bot-processed" ∈ (add_label ["bug"] true true "bot-processed").repoLabels) :=
  ⟨add_label_filters_unknown_labels.1 ["bug"] true true "docs" (by decide) (by decide),
   add_label_filters_unknown_labels.2 ["bug"] (by decide)⟩

end IssuesChecker
namespace IssuesChecker

theorem bind_eq {α β : Type} (m : P α) (f : α → P β) : m >>= f = P.bind m f := rfl

theorem pure_eq {α : Type} (a : α) : (pure a : P α) = fun s => (POut.val a, s) := rfl

theorem markAndReturn_cases {α : Type} (env : Env) (b : Bool) (k0 : Nat) (tr : List Event) :
    (∃ r, markAndReturn env b ⟨k0, tr⟩ =
      ((POut.ret b : POut α), ⟨k0 + 1, tr ++ [Event.addLabel BOT_PROCESSED_LABEL (Exc.ok r)]⟩))
    ∨ markAndReturn env b ⟨k0, tr⟩ =
      ((POut.exn : POut α), ⟨k0 + 1, tr ++ [Event.addLabel BOT_PROCESSED_LABEL Exc.exn]⟩) := by
  cases hr : env.addLabel k0 BOT_PROCESSED_LABEL with
  | ok r =>
    left
    exact ⟨r, by simp [markAndReturn, addLabelBot, gcall, bind_eq, P.bind, pyReturn, hr]⟩
  | exn =>
    right
    simp [markAndReturn, addLabelBot, gcall, bind_eq, P.bind, pyReturn, hr]

theorem labelLoop_facts (env : Env) :
    ∀ (ls : List String) (s : PState) (o : POut Unit) (s' : PState),
      labelLoop env ls s = (o, s') →
      (o = POut.val () ∨ o = POut.exn)
      ∧ s.trace <+: s'.trace
      ∧ analyzeCount s'.trace = analyzeCount s.trace
      ∧ commitResults s'.trace = commitResults s.trace
      ∧ implAttemptCount s'.trace = implAttemptCount s.trace
      ∧ retryCount s'.trace = retryCount s.trace
      ∧ pushPRCount s'.trace = pushPRCount s.trace
      ∧ cloneCheckoutCount s'.trace = cloneCheckoutCount s.trace
      ∧ (∀ (tb : String) (labs : List String) (ar : AnalysisResult),
          Event.analyzeIssue tb labs (Exc.ok ar) ∈ s'.trace →
          Event.analyzeIssue tb labs (Exc.ok ar) ∈ s.trace) := by
  intro ls
  induction ls with
  | nil =>
    intro s o s' h
    simp only [labelLoop, pure_eq] at h
    rw [Prod.mk.injEq] at h
    obtain ⟨h1, h2⟩ := h
    subst h1
    subst h2
    exact ⟨Or.inl rfl, List.prefix_refl _, rfl, rfl, rfl, rfl, rfl, rfl, fun _ _ _ hm => hm⟩
  | cons l ls ih =>
    intro s o s' h
    simp only [labelLoop, bind_eq, P.bind, gcall] at h
    cases hl : env.addLabel s.k l with
    | exn =>
      simp only [hl] at h
      rw [Prod.mk.injEq] at h
      obtain ⟨h1, h2⟩ := h
      subst h1
      subst h2
      refine ⟨Or.inr rfl, List.prefix_append _ _, ?_, ?_, ?_, ?_, ?_, ?_, ?_⟩
      · simp [analyzeCount, Event.isAnalyze, List.countP_append]
      · simp [commitResults, List.filterMap_append]
      · simp [implAttemptCount, Event.isImplAttempt, List.countP_append]
      · simp [retryCount, Event.isRetry, List.countP_append]
      · simp [pushPRCount, Event.isPushOrPR, List.countP_append]
      · simp [cloneCheckoutCount, Event.isCloneOrCheckout, List.countP_append]
      · intro tb labs ar hm
        rcases List.mem_append.mp hm with hmm | hmm
        · exact hmm
        · simp at hmm
    | ok b =>
      simp only [hl] at h
      obtain ⟨hov, hpre, ha, hc, hi, hr, hp, hcc, hmem⟩ :=
        ih ⟨s.k + 1, s.trace ++ [Event.addLabel l (Exc.ok b)]⟩ o s' h
      refine ⟨hov, List.IsPrefix.trans (List.prefix_append _ _) hpre, ?_, ?_, ?_, ?_, ?_, ?_, ?_⟩
      · rw [ha]; simp [analyzeCount, Event.isAnalyze, List.countP_append]
      · rw [hc]; simp [commitResults, List.filterMap_append]
      · rw [hi]; simp [implAttemptCount, Event.isImplAttempt, List.countP_append]
      · rw [hr]; simp [retryCount, Event.isRetry, List.countP_append]
      · rw [hp]; simp [pushPRCount, Event.isPushOrPR, List.countP_append]
      · rw [hcc]; simp [cloneCheckoutCount, Event.isCloneOrCheckout, List.countP_append]
      · intro tb labs ar hm
        rcases List.mem_append.mp (hmem tb labs ar hm) with hmm | hmm
        · exact hmm
        · simp at hmm

theorem stepS8S9_facts (env : Env) (issue : IssueData) (analysisText implMessage : String) :
    ∀ (s : PState) (o : POut Bool) (s' : PState),
      stepS8S9 env issue analysisText implMessage s = (o, s') →
      s.trace <+: s'.trace
      ∧ analyzeCount s'.trace = analyzeCount s.trace
      ∧ commitResults s'.trace = commitResults s.trace
      ∧ implAttemptCount s'.trace = implAttemptCount s.trace
      ∧ retryCount s'.trace = retryCount s.trace
      ∧ (∀ (tb : String) (labs : List String) (ar : AnalysisResult),
          Event.analyzeIssue tb labs (Exc.ok ar) ∈ s'.trace →
          Event.analyzeIssue tb labs (Exc.ok ar) ∈ s.trace)
      ∧ (o ≠ POut.exn → marksProcessed s'.trace = true) := by
  intro s o s' h
  unfold stepS8S9 at h
  simp only [bind_eq, P.bind, gcall, pure_eq] at h
  cases hpu : env.pushBranch s.k ("fix/issue-" ++ toString issue.number) with
  | exn =>
    simp only [P.bind, gcall, pure_eq, Bool.not_true, Bool.not_false, Bool.false_eq_true, Bool.true_eq_false, if_false, if_true, ite_false, ite_true, hpu] at h
    rw [Prod.mk.injEq] at h
    obtain ⟨h1, h2⟩ := h
    subst h1
    subst h2
    refine ⟨?_, ?_, ?_, ?_, ?_, ?_, ?_⟩
    · first
      | exact List.prefix_append _ _
      | (simp only [List.append_assoc]; exact List.prefix_append _ _)
    · simp [analyzeCount, Event.isAnalyze, List.countP_append]
    · simp [commitResults, List.filterMap_append]
    · simp [implAttemptCount, Event.isImplAttempt, List.countP_append]
    · simp [retryCount, Event.isRetry, List.countP_append]
    · intro tb labs ar hm
      simp only [List.append_assoc, List.mem_append] at hm
      rcases hm with hm | hm
      · exact hm
      · simp at hm
    · intro hne
      exact absurd rfl hne
  | ok pushed =>
    cases pushed with
    | false =>
      simp only [P.bind, gcall, pure_eq, Bool.not_true, Bool.not_false, Bool.false_eq_true, Bool.true_eq_false, if_false, if_true, ite_false, ite_true, hpu] at h
      rcases markAndReturn_cases (α := PUnit) env false (s.k + 1)
          (s.trace ++ [Event.pushBranch ("fix/issue-" ++ toString issue.number) (Exc.ok false)])
        with ⟨r, hmr⟩ | hmr <;> simp only [hmr] at h
      rw [Prod.mk.injEq] at h
      obtain ⟨h1, h2⟩ := h
      subst h1
      subst h2
      refine ⟨?_, ?_, ?_, ?_, ?_, ?_, ?_⟩
      · first
        | exact List.prefix_append _ _
        | (simp only [List.append_assoc]; exact List.prefix_append _ _)
      · simp [analyzeCount, Event.isAnalyze, List.countP_append]
      · simp [commitResults, List.filterMap_append]
      · simp [implAttemptCount, Event.isImplAttempt, List.countP_append]
      · simp [retryCount, Event.isRetry, List.countP_append]
      · intro tb labs ar hm
        simp only [List.append_assoc, List.mem_append] at hm
        rcases hm with hm | hm
        · exact hm
        · simp at hm
      · intro _
        simp [marksProcessed, Event.isAddLabelNamed, BOT_PROCESSED_LABEL, List.any_append]
      rw [Prod.mk.injEq] at h
      obtain ⟨h1, h2⟩ := h
      subst h1
      subst h2
      refine ⟨?_, ?_, ?_, ?_, ?_, ?_, ?_⟩
      · first
        | exact List.prefix_append _ _
        | (simp only [List.append_assoc]; exact List.prefix_append _ _)
      · simp [analyzeCount, Event.isAnalyze, List.countP_append]
      · simp [commitResults, List.filterMap_append]
      · simp [implAttemptCount, Event.isImplAttempt, List.countP_append]
      · simp [retryCount, Event.isRetry, List.countP_append]
      · intro tb labs ar hm
        simp only [List.append_assoc, List.mem_append] at hm
        rcases hm with hm | hm
        · exact hm
        · simp at hm
      · intro hne
        exact absurd rfl hne
    | true =>
      simp only [P.bind, gcall, pure_eq, Bool.not_true, Bool.not_false, Bool.false_eq_true, Bool.true_eq_false, if_false, if_true, ite_false, ite_true, hpu] at h
      cases hpr : env.createPullRequest (s.k + 1)
          ("Fix: " ++ issue.title ++ " (#" ++ toString issue.number ++ ")")
          (prBodyText issue analysisText implMessage) with
      | exn =>
        simp only [P.bind, gcall, pure_eq, Bool.not_true, Bool.not_false, Bool.false_eq_true, Bool.true_eq_false, if_false, if_true, ite_false, ite_true, hpr] at h
        rw [Prod.mk.injEq] at h
        obtain ⟨h1, h2⟩ := h
        subst h1
        subst h2
        refine ⟨?_, ?_, ?_, ?_, ?_, ?_, ?_⟩
        · first
          | exact List.prefix_append _ _
          | (simp only [List.append_assoc]; exact List.prefix_append _ _)
        · simp [analyzeCount, Event.isAnalyze, List.countP_append]
        · simp [commitResults, List.filterMap_append]
        · simp [implAttemptCount, Event.isImplAttempt, List.countP_append]
        · simp [retryCount, Event.isRetry, List.countP_append]
        · intro tb labs ar hm
          simp only [List.append_assoc, List.mem_append] at hm
          rcases hm with hm | hm
          · exact hm
          · simp at hm
        · intro hne
          exact absurd rfl hne
      | ok prUrl =>
        cases prUrl with
        | none =>
          simp only [P.bind, gcall, pure_eq, Bool.not_true, Bool.not_false, Bool.false_eq_true, Bool.true_eq_false, if_false, if_true, ite_false, ite_true, hpr] at h
          rcases markAndReturn_cases (α := Bool) env false (s.k + 1 + 1)
              (s.trace ++ [Event.pushBranch ("fix/issue-" ++ toString issue.number) (Exc.ok true)] ++
               [Event.createPullRequest ("Fix: " ++ issue.title ++ " (#" ++ toString issue.number ++ ")")
                  (prBodyText issue analysisText implMessage) (Exc.ok none)])
            with ⟨r, hmr⟩ | hmr <;> simp only [hmr] at h
          rw [Prod.mk.injEq] at h
          obtain ⟨h1, h2⟩ := h
          subst h1
          subst h2
          refine ⟨?_, ?_, ?_, ?_, ?_, ?_, ?_⟩
          · first
            | exact List.prefix_append _ _
            | (simp only [List.append_assoc]; exact List.prefix_append _ _)
          · simp [analyzeCount, Event.isAnalyze, List.countP_append]
          · simp [commitResults, List.filterMap_append]
          · simp [implAttemptCount, Event.isImplAttempt, List.countP_append]
          · simp [retryCount, Event.isRetry, List.countP_append]
          · intro tb labs ar hm
            simp only [List.append_assoc, List.mem_append] at hm
            rcases hm with hm | hm
            · exact hm
            · simp at hm
          · intro _
            simp [marksProcessed, Event.isAddLabelNamed, BOT_PROCESSED_LABEL, List.any_append]
          rw [Prod.mk.injEq] at h
          obtain ⟨h1, h2⟩ := h
          subst h1
          subst h2
          refine ⟨?_, ?_, ?_, ?_, ?_, ?_, ?_⟩
          · first
            | exact List.prefix_append _ _
            | (simp only [List.append_assoc]; exact List.prefix_append _ _)
          · simp [analyzeCount, Event.isAnalyze, List.countP_append]
          · simp [commitResults, List.filterMap_append]
          · simp [implAttemptCount, Event.isImplAttempt, List.countP_append]
          · simp [retryCount, Event.isRetry, List.countP_append]
          · intro tb labs ar hm
            simp only [List.append_assoc, List.mem_append] at hm
            rcases hm with hm | hm
            · exact hm
            · simp at hm
          · intro hne
            exact absurd rfl hne
        | some url =>
          simp only [P.bind, gcall, pure_eq, Bool.not_true, Bool.not_false, Bool.false_eq_true, Bool.true_eq_false, if_false, if_true, ite_false, ite_true, hpr] at h
          cases hcm : env.addComment (s.k + 1 + 1) (prLinkComment url) with
          | exn =>
            simp only [P.bind, gcall, pure_eq, Bool.not_true, Bool.not_false, Bool.false_eq_true, Bool.true_eq_false, if_false, if_true, ite_false, ite_true, hcm] at h
            rw [Prod.mk.injEq] at h
            obtain ⟨h1, h2⟩ := h
            subst h1
            subst h2
            refine ⟨?_, ?_, ?_, ?_, ?_, ?_, ?_⟩
            · first
              | exact List.prefix_append _ _
              | (simp only [List.append_assoc]; exact List.prefix_append _ _)
            · simp [analyzeCount, Event.isAnalyze, List.countP_append]
            · simp [commitResults, List.filterMap_append]
            · simp [implAttemptCount, Event.isImplAttempt, List.countP_append]
            · simp [retryCount, Event.isRetry, List.countP_append]
            · intro tb labs ar hm
              simp only [List.append_assoc, List.mem_append] at hm
              rcases hm with hm | hm
              · exact hm
              · simp at hm
            · intro hne
              exact absurd rfl hne
          | ok cr =>
            simp only [P.bind, gcall, pure_eq, Bool.not_true, Bool.not_false, Bool.false_eq_true, Bool.true_eq_false, if_false, if_true, ite_false, ite_true, hcm] at h
            rcases markAndReturn_cases (α := Bool) env true (s.k + 1 + 1 + 1)
                (s.trace ++ [Event.pushBranch ("fix/issue-" ++ toString issue.number) (Exc.ok true)] ++
                 [Event.createPullRequest ("Fix: " ++ issue.title ++ " (#" ++ toString issue.number ++ ")")
                    (prBodyText issue analysisText implMessage) (Exc.ok (some url))] ++
                 [Event.addComment (prLinkComment url) (Exc.ok cr)])
              with ⟨r, hmr⟩ | hmr <;> simp only [hmr] at h
            rw [Prod.mk.injEq] at h
            obtain ⟨h1, h2⟩ := h
            subst h1
            subst h2
            refine ⟨?_, ?_, ?_, ?_, ?_, ?_, ?_⟩
            · first
              | exact List.prefix_append _ _
              | (simp only [List.append_assoc]; exact List.prefix_append _ _)
            · simp [analyzeCount, Event.isAnalyze, List.countP_append]
            · simp [commitResults, List.filterMap_append]
            · simp [implAttemptCount, Event.isImplAttempt, List.countP_append]
            · simp [retryCount, Event.isRetry, List.countP_append]
            · intro tb labs ar hm
              simp only [List.append_assoc, List.mem_append] at hm
              rcases hm with hm | hm
              · exact hm
              · simp at hm
            · intro _
              simp [marksProcessed, Event.isAddLabelNamed, BOT_PROCESSED_LABEL, List.any_append]
            rw [Prod.mk.injEq] at h
            obtain ⟨h1, h2⟩ := h
            subst h1
            subst h2
            refine ⟨?_, ?_, ?_, ?_, ?_, ?_, ?_⟩
            · first
              | exact List.prefix_append _ _
              | (simp only [List.append_assoc]; exact List.prefix_append _ _)
            · simp [analyzeCount, Event.isAnalyze, List.countP_append]
            · simp [commitResults, List.filterMap_append]
            · simp [implAttemptCount, Event.isImplAttempt, List.countP_append]
            · simp [retryCount, Event.isRetry, List.countP_append]
            · intro tb labs ar hm
              simp only [List.append_assoc, List.mem_append] at hm
              rcases hm with hm | hm
              · exact hm
              · simp at hm
            · intro hne
              exact absurd rfl hne

theorem stepS5toS9_facts (env : Env) (issue : IssueData) (analysisText : String) :
    ∀ (s : PState) (o : POut Bool) (s' : PState),
      stepS5toS9 env issue analysisText s = (o, s') →
      commitResults s.trace = [] →
      retryCount s.trace = 0 →
      implAttemptCount s.trace = 0 →
      pushPRCount s.trace = 0 →
      s.trace <+: s'.trace
      ∧ analyzeCount s'.trace = analyzeCount s.trace
      ∧ (∀ (tb : String) (labs : List String) (ar : AnalysisResult),
          Event.analyzeIssue tb labs (Exc.ok ar) ∈ s'.trace →
          Event.analyzeIssue tb labs (Exc.ok ar) ∈ s.trace)
      ∧ implAttemptCount s'.trace ≤ 2
      ∧ (∀ rest : List (Exc Bool), commitResults s'.trace = Exc.ok false :: rest → retryCount s'.trace = 1)
      ∧ (commitResults s'.trace = [Exc.ok false, Exc.ok false] →
          s'.trace.any (Event.isCommentWith noChangesComment) = true
          ∧ pushPRCount s'.trace = 0
          ∧ (o ≠ POut.exn → o = POut.ret false))
      ∧ (o ≠ POut.exn → marksProcessed s'.trace = true) := by
  intro s o s' h hc hr hi hp
  simp only [commitResults] at hc
  simp only [retryCount] at hr
  simp only [implAttemptCount] at hi
  simp only [pushPRCount] at hp
  unfold stepS5toS9 at h
  simp only [bind_eq, P.bind, gcall, pure_eq] at h
  cases hco : env.checkoutBranch s.k ("fix/issue-" ++ toString issue.number) with
  | exn =>
    simp only [P.bind, gcall, pure_eq, Bool.not_true, Bool.not_false, Bool.false_eq_true, Bool.true_eq_false, if_false, if_true, ite_false, ite_true, hco] at h
    rw [Prod.mk.injEq] at h
    obtain ⟨h1, h2⟩ := h
    subst h1
    subst h2
    refine ⟨?_, ?_, ?_, ?_, ?_, ?_, ?_⟩
    · first
      | exact List.prefix_append _ _
      | (simp only [List.append_assoc]; exact List.prefix_append _ _)
    · simp [analyzeCount, Event.isAnalyze, List.countP_append]
    · intro tb labs ar hm
      simp only [List.append_assoc, List.mem_append] at hm
      rcases hm with hm | hm
      · exact hm
      · simp at hm
    · simp [implAttemptCount, Event.isImplAttempt, List.countP_append, hi]
    · intro rest hx
      simp [commitResults, List.filterMap_append, hc] at hx
    · intro hx
      simp [commitResults, List.filterMap_append, hc] at hx
    · intro hne
      exact absurd rfl hne
  | ok co =>
    cases co with
    | false =>
      simp only [P.bind, gcall, pure_eq, Bool.not_true, Bool.not_false, Bool.false_eq_true, Bool.true_eq_false, if_false, if_true, ite_false, ite_true, hco] at h
      rcases markAndReturn_cases (α := PUnit) env false (s.k + 1)
          (s.trace ++ [Event.checkoutBranch ("fix/issue-" ++ toString issue.number) (Exc.ok false)])
        with ⟨r, hmr⟩ | hmr <;> simp only [hmr] at h
      rw [Prod.mk.injEq] at h
      obtain ⟨h1, h2⟩ := h
      subst h1
      subst h2
      refine ⟨?_, ?_, ?_, ?_, ?_, ?_, ?_⟩
      · first
        | exact List.prefix_append _ _
        | (simp only [List.append_assoc]; exact List.prefix_append _ _)
      · simp [analyzeCount, Event.isAnalyze, List.countP_append]
      · intro tb labs ar hm
        simp only [List.append_assoc, List.mem_append] at hm
        rcases hm with hm | hm
        · exact hm
        · simp at hm
      · simp [implAttemptCount, Event.isImplAttempt, List.countP_append, hi]
      · intro rest hx
        simp [commitResults, List.filterMap_append, hc] at hx
      · intro hx
        simp [commitResults, List.filterMap_append, hc] at hx
      · intro _
        simp [marksProcessed, Event.isAddLabelNamed, BOT_PROCESSED_LABEL, List.any_append]
      rw [Prod.mk.injEq] at h
      obtain ⟨h1, h2⟩ := h
      subst h1
      subst h2
      refine ⟨?_, ?_, ?_, ?_, ?_, ?_, ?_⟩
      · first
        | exact List.prefix_append _ _
        | (simp only [List.append_assoc]; exact List.prefix_append _ _)
      · simp [analyzeCount, Event.isAnalyze, List.countP_append]
      · intro tb labs ar hm
        simp only [List.append_assoc, List.mem_append] at hm
        rcases hm with hm | hm
        · exact hm
        · simp at hm
      · simp [implAttemptCount, Event.isImplAttempt, List.countP_append, hi]
      · intro rest hx
        simp [commitResults, List.filterMap_append, hc] at hx
      · intro hx
        simp [commitResults, List.filterMap_append, hc] at hx
      · intro hne
        exact absurd rfl hne
    | true =>
      simp only [P.bind, gcall, pure_eq, Bool.not_true, Bool.not_false, Bool.false_eq_true, Bool.true_eq_false, if_false, if_true, ite_false, ite_true, hco] at h
      cases hcb : env.createBranch (s.k + 1) ("fix/issue-" ++ toString issue.number) with
      | exn =>
        simp only [P.bind, gcall, pure_eq, Bool.not_true, Bool.not_false, Bool.false_eq_true, Bool.true_eq_false, if_false, if_true, ite_false, ite_true, hcb] at h
        rw [Prod.mk.injEq] at h
        obtain ⟨h1, h2⟩ := h
        subst h1
        subst h2
        refine ⟨?_, ?_, ?_, ?_, ?_, ?_, ?_⟩
        · first
          | exact List.prefix_append _ _
          | (simp only [List.append_assoc]; exact List.prefix_append _ _)
        · simp [analyzeCount, Event.isAnalyze, List.countP_append]
        · intro tb labs ar hm
          simp only [List.append_assoc, List.mem_append] at hm
          rcases hm with hm | hm
          · exact hm
          · simp at hm
        · simp [implAttemptCount, Event.isImplAttempt, List.countP_append, hi]
        · intro rest hx
          simp [commitResults, List.filterMap_append, hc] at hx
        · intro hx
          simp [commitResults, List.filterMap_append, hc] at hx
        · intro hne
          exact absurd rfl hne
      | ok cb =>
        simp only [P.bind, gcall, pure_eq, Bool.not_true, Bool.not_false, Bool.false_eq_true, Bool.true_eq_false, if_false, if_true, ite_false, ite_true, hcb] at h
        cases himp : env.implementFix (s.k + 1 + 1) with
        | exn =>
          simp only [P.bind, gcall, pure_eq, Bool.not_true, Bool.not_false, Bool.false_eq_true, Bool.true_eq_false, if_false, if_true, ite_false, ite_true, himp] at h
          rw [Prod.mk.injEq] at h
          obtain ⟨h1, h2⟩ := h
          subst h1
          subst h2
          refine ⟨?_, ?_, ?_, ?_, ?_, ?_, ?_⟩
          · first
            | exact List.prefix_append _ _
            | (simp only [List.append_assoc]; exact List.prefix_append _ _)
          · simp [analyzeCount, Event.isAnalyze, List.countP_append]
          · intro tb labs ar hm
            simp only [List.append_assoc, List.mem_append] at hm
            rcases hm with hm | hm
            · exact hm
            · simp at hm
          · simp [implAttemptCount, Event.isImplAttempt, List.countP_append, hi]
          · intro rest hx
            simp [commitResults, List.filterMap_append, hc] at hx
          · intro hx
            simp [commitResults, List.filterMap_append, hc] at hx
          · intro hne
            exact absurd rfl hne
        | ok impl =>
          simp only [P.bind, gcall, pure_eq, Bool.not_true, Bool.not_false, Bool.false_eq_true, Bool.true_eq_false, if_false, if_true, ite_false, ite_true, himp] at h
          cases hsucc : impl.success with
          | false =>
            simp only [P.bind, gcall, pure_eq, Bool.not_true, Bool.not_false, Bool.false_eq_true, Bool.true_eq_false, if_false, if_true, ite_false, ite_true, hsucc] at h
            rcases markAndReturn_cases (α := PUnit) env false (s.k + 1 + 1 + 1)
                (s.trace ++ [Event.checkoutBranch ("fix/issue-" ++ toString issue.number) (Exc.ok true)] ++ [Event.createBranch ("fix/issue-" ++ toString issue.number) (Exc.ok cb)] ++ [Event.implementFix (Exc.ok impl)])
              with ⟨r, hmr⟩ | hmr <;> simp only [hmr] at h
            rw [Prod.mk.injEq] at h
            obtain ⟨h1, h2⟩ := h
            subst h1
            subst h2
            refine ⟨?_, ?_, ?_, ?_, ?_, ?_, ?_⟩
            · first
              | exact List.prefix_append _ _
              | (simp only [List.append_assoc]; exact List.prefix_append _ _)
            · simp [analyzeCount, Event.isAnalyze, List.countP_append]
            · intro tb labs ar hm
              simp only [List.append_assoc, List.mem_append] at hm
              rcases hm with hm | hm
              · exact hm
              · simp at hm
            · simp [implAttemptCount, Event.isImplAttempt, List.countP_append, hi]
            · intro rest hx
              simp [commitResults, List.filterMap_append, hc] at hx
            · intro hx
              simp [commitResults, List.filterMap_append, hc] at hx
            · intro _
              simp [marksProcessed, Event.isAddLabelNamed, BOT_PROCESSED_LABEL, List.any_append]
            rw [Prod.mk.injEq] at h
            obtain ⟨h1, h2⟩ := h
            subst h1
            subst h2
            refine ⟨?_, ?_, ?_, ?_, ?_, ?_, ?_⟩
            · first
              | exact List.prefix_append _ _
              | (simp only [List.append_assoc]; exact List.prefix_append _ _)
            · simp [analyzeCount, Event.isAnalyze, List.countP_append]
            · intro tb labs ar hm
              simp only [List.append_assoc, List.mem_append] at hm
              rcases hm with hm | hm
              · exact hm
              · simp at hm
            · simp [implAttemptCount, Event.isImplAttempt, List.countP_append, hi]
            · intro rest hx
              simp [commitResults, List.filterMap_append, hc] at hx
            · intro hx
              simp [commitResults, List.filterMap_append, hc] at hx
            · intro hne
              exact absurd rfl hne
          | true =>
            simp only [P.bind, gcall, pure_eq, Bool.not_true, Bool.not_false, Bool.false_eq_true, Bool.true_eq_false, if_false, if_true, ite_false, ite_true, hsucc] at h
            cases hc1 : env.commitChanges (s.k + 1 + 1 + 1) (commitMessageText issue analysisText) with
            | exn =>
              simp only [P.bind, gcall, pure_eq, Bool.not_true, Bool.not_false, Bool.false_eq_true, Bool.true_eq_false, if_false, if_true, ite_false, ite_true, hc1] at h
              rw [Prod.mk.injEq] at h
              obtain ⟨h1, h2⟩ := h
              subst h1
              subst h2
              refine ⟨?_, ?_, ?_, ?_, ?_, ?_, ?_⟩
              · first
                | exact List.prefix_append _ _
                | (simp only [List.append_assoc]; exact List.prefix_append _ _)
              · simp [analyzeCount, Event.isAnalyze, List.countP_append]
              · intro tb labs ar hm
                simp only [List.append_assoc, List.mem_append] at hm
                rcases hm with hm | hm
                · exact hm
                · simp at hm
              · simp [implAttemptCount, Event.isImplAttempt, List.countP_append, hi]
              · intro rest hx
                simp [commitResults, List.filterMap_append, hc] at hx
              · intro hx
                simp [commitResults, List.filterMap_append, hc] at hx
              · intro hne
                exact absurd rfl hne
            | ok c1 =>
              cases c1 with
              | true =>
                simp only [P.bind, gcall, pure_eq, Bool.not_true, Bool.not_false, Bool.false_eq_true, Bool.true_eq_false, if_false, if_true, ite_false, ite_true, hc1] at h
                obtain ⟨pfx8, ana8, com8, imp8, ret8, mem8, mark8⟩ :=
                  stepS8S9_facts env issue analysisText impl.message _ o s' h
                refine ⟨?_, ?_, ?_, ?_, ?_, ?_, mark8⟩
                · refine List.IsPrefix.trans ?_ pfx8
                  first
                  | exact List.prefix_append _ _
                  | (simp only [List.append_assoc]; exact List.prefix_append _ _)
                · rw [ana8]
                  simp [analyzeCount, Event.isAnalyze, List.countP_append]
                · intro tb labs ar hm
                  have hm2 := mem8 tb labs ar hm
                  simp only [List.append_assoc, List.mem_append] at hm2
                  rcases hm2 with hm2 | hm2
                  · exact hm2
                  · simp at hm2
                · rw [imp8]
                  simp [implAttemptCount, Event.isImplAttempt, List.countP_append, hi]
                · intro rest hx
                  rw [com8] at hx
                  simp [commitResults, List.filterMap_append, hc] at hx
                · intro hx
                  rw [com8] at hx
                  simp [commitResults, List.filterMap_append, hc] at hx
              | false =>
                simp only [P.bind, gcall, pure_eq, Bool.not_true, Bool.not_false, Bool.false_eq_true, Bool.true_eq_false, if_false, if_true, ite_false, ite_true, hc1] at h
                cases hrt : env.implementFixWithRetry (s.k + 1 + 1 + 1 + 1) retryNote with
                | exn =>
                  simp only [P.bind, gcall, pure_eq, Bool.not_true, Bool.not_false, Bool.false_eq_true, Bool.true_eq_false, if_false, if_true, ite_false, ite_true, hrt] at h
                  rw [Prod.mk.injEq] at h
                  obtain ⟨h1, h2⟩ := h
                  subst h1
                  subst h2
                  refine ⟨?_, ?_, ?_, ?_, ?_, ?_, ?_⟩
                  · first
                    | exact List.prefix_append _ _
                    | (simp only [List.append_assoc]; exact List.prefix_append _ _)
                  · simp [analyzeCount, Event.isAnalyze, List.countP_append]
                  · intro tb labs ar hm
                    simp only [List.append_assoc, List.mem_append] at hm
                    rcases hm with hm | hm
                    · exact hm
                    · simp at hm
                  · simp [implAttemptCount, Event.isImplAttempt, List.countP_append, hi]
                  · intro rest hx
                    simp [retryCount, Event.isRetry, List.countP_append, hr]
                  · intro hx
                    simp [commitResults, List.filterMap_append, hc] at hx
                  · intro hne
                    exact absurd rfl hne
                | ok retry =>
                  simp only [P.bind, gcall, pure_eq, Bool.not_true, Bool.not_false, Bool.false_eq_true, Bool.true_eq_false, if_false, if_true, ite_false, ite_true, hrt] at h
                  cases hrs : retry.success with
                  | false =>
                    simp only [P.bind, gcall, pure_eq, Bool.not_true, Bool.not_false, Bool.false_eq_true, Bool.true_eq_false, if_false, if_true, ite_false, ite_true, hrs] at h
                    cases hcm2 : env.addComment (s.k + 1 + 1 + 1 + 1 + 1) noChangesComment with
                    | exn =>
                      simp only [P.bind, gcall, pure_eq, Bool.not_true, Bool.not_false, Bool.false_eq_true, Bool.true_eq_false, if_false, if_true, ite_false, ite_true, hcm2] at h
                      rw [Prod.mk.injEq] at h
                      obtain ⟨h1, h2⟩ := h
                      subst h1
                      subst h2
                      refine ⟨?_, ?_, ?_, ?_, ?_, ?_, ?_⟩
                      · first
                        | exact List.prefix_append _ _
                        | (simp only [List.append_assoc]; exact List.prefix_append _ _)
                      · simp [analyzeCount, Event.isAnalyze, List.countP_append]
                      · intro tb labs ar hm
                        simp only [List.append_assoc, List.mem_append] at hm
                        rcases hm with hm | hm
                        · exact hm
                        · simp at hm
                      · simp [implAttemptCount, Event.isImplAttempt, List.countP_append, hi]
                      · intro rest hx
                        simp [retryCount, Event.isRetry, List.countP_append, hr]
                      · intro hx
                        simp [commitResults, List.filterMap_append, hc] at hx
                      · intro hne
                        exact absurd rfl hne
                    | ok cm =>
                      simp only [P.bind, gcall, pure_eq, Bool.not_true, Bool.not_false, Bool.false_eq_true, Bool.true_eq_false, if_false, if_true, ite_false, ite_true, hcm2] at h
                      rcases markAndReturn_cases (α := PUnit) env false (s.k + 1 + 1 + 1 + 1 + 1 + 1)
                          (s.trace ++ [Event.checkoutBranch ("fix/issue-" ++ toString issue.number) (Exc.ok true)] ++ [Event.createBranch ("fix/issue-" ++ toString issue.number) (Exc.ok cb)] ++ [Event.implementFix (Exc.ok impl)] ++ [Event.commitChanges (commitMessageText issue analysisText) (Exc.ok false)] ++ [Event.implementFixRetry retryNote (Exc.ok retry)] ++ [Event.addComment noChangesComment (Exc.ok cm)])
                        with ⟨r, hmr⟩ | hmr <;> simp only [hmr] at h
                      rw [Prod.mk.injEq] at h
                      obtain ⟨h1, h2⟩ := h
                      subst h1
                      subst h2
                      refine ⟨?_, ?_, ?_, ?_, ?_, ?_, ?_⟩
                      · first
                        | exact List.prefix_append _ _
                        | (simp only [List.append_assoc]; exact List.prefix_append _ _)
                      · simp [analyzeCount, Event.isAnalyze, List.countP_append]
                      · intro tb labs ar hm
                        simp only [List.append_assoc, List.mem_append] at hm
                        rcases hm with hm | hm
                        · exact hm
                        · simp at hm
                      · simp [implAttemptCount, Event.isImplAttempt, List.countP_append, hi]
                      · intro rest hx
                        simp [retryCount, Event.isRetry, List.countP_append, hr]
                      · intro hx
                        simp [commitResults, List.filterMap_append, hc] at hx
                      · intro _
                        simp [marksProcessed, Event.isAddLabelNamed, BOT_PROCESSED_LABEL, List.any_append]
                      rw [Prod.mk.injEq] at h
                      obtain ⟨h1, h2⟩ := h
                      subst h1
                      subst h2
                      refine ⟨?_, ?_, ?_, ?_, ?_, ?_, ?_⟩
                      · first
                        | exact List.prefix_append _ _
                        | (simp only [List.append_assoc]; exact List.prefix_append _ _)
                      · simp [analyzeCount, Event.isAnalyze, List.countP_append]
                      · intro tb labs ar hm
                        simp only [List.append_assoc, List.mem_append] at hm
                        rcases hm with hm | hm
                        · exact hm
                        · simp at hm
                      · simp [implAttemptCount, Event.isImplAttempt, List.countP_append, hi]
                      · intro rest hx
                        simp [retryCount, Event.isRetry, List.countP_append, hr]
                      · intro hx
                        simp [commitResults, List.filterMap_append, hc] at hx
                      · intro hne
                        exact absurd rfl hne
                  | true =>
                    simp only [P.bind, gcall, pure_eq, Bool.not_true, Bool.not_false, Bool.false_eq_true, Bool.true_eq_false, if_false, if_true, ite_false, ite_true, hrs] at h
                    cases hc2 : env.commitChanges (s.k + 1 + 1 + 1 + 1 + 1) (commitMessageText issue analysisText) with
                    | exn =>
                      simp only [P.bind, gcall, pure_eq, Bool.not_true, Bool.not_false, Bool.false_eq_true, Bool.true_eq_false, if_false, if_true, ite_false, ite_true, hc2] at h
                      rw [Prod.mk.injEq] at h
                      obtain ⟨h1, h2⟩ := h
                      subst h1
                      subst h2
                      refine ⟨?_, ?_, ?_, ?_, ?_, ?_, ?_⟩
                      · first
                        | exact List.prefix_append _ _
                        | (simp only [List.append_assoc]; exact List.prefix_append _ _)
                      · simp [analyzeCount, Event.isAnalyze, List.countP_append]
                      · intro tb labs ar hm
                        simp only [List.append_assoc, List.mem_append] at hm
                        rcases hm with hm | hm
                        · exact hm
                        · simp at hm
                      · simp [implAttemptCount, Event.isImplAttempt, List.countP_append, hi]
                      · intro rest hx
                        simp [retryCount, Event.isRetry, List.countP_append, hr]
                      · intro hx
                        simp [commitResults, List.filterMap_append, hc] at hx
                      · intro hne
                        exact absurd rfl hne
                    | ok c2 =>
                      cases c2 with
                      | false =>
                        simp only [P.bind, gcall, pure_eq, Bool.not_true, Bool.not_false, Bool.false_eq_true, Bool.true_eq_false, if_false, if_true, ite_false, ite_true, hc2] at h
                        cases hcm3 : env.addComment (s.k + 1 + 1 + 1 + 1 + 1 + 1) noChangesComment with
                        | exn =>
                          simp only [P.bind, gcall, pure_eq, Bool.not_true, Bool.not_false, Bool.false_eq_true, Bool.true_eq_false, if_false, if_true, ite_false, ite_true, hcm3] at h
                          rw [Prod.mk.injEq] at h
                          obtain ⟨h1, h2⟩ := h
                          subst h1
                          subst h2
                          refine ⟨?_, ?_, ?_, ?_, ?_, ?_, ?_⟩
                          · first
                            | exact List.prefix_append _ _
                            | (simp only [List.append_assoc]; exact List.prefix_append _ _)
                          · simp [analyzeCount, Event.isAnalyze, List.countP_append]
                          · intro tb labs ar hm
                            simp only [List.append_assoc, List.mem_append] at hm
                            rcases hm with hm | hm
                            · exact hm
                            · simp at hm
                          · simp [implAttemptCount, Event.isImplAttempt, List.countP_append, hi]
                          · intro rest hx
                            simp [retryCount, Event.isRetry, List.countP_append, hr]
                          · intro hx
                            refine ⟨?_, ?_, ?_⟩
                            · simp [Event.isCommentWith, List.any_append]
                            · simp [pushPRCount, Event.isPushOrPR, List.countP_append, hp]
                            · intro hne
                              exact absurd rfl hne
                          · intro hne
                            exact absurd rfl hne
                        | ok cm =>
                          simp only [P.bind, gcall, pure_eq, Bool.not_true, Bool.not_false, Bool.false_eq_true, Bool.true_eq_false, if_false, if_true, ite_false, ite_true, hcm3] at h
                          rcases markAndReturn_cases (α := PUnit) env false (s.k + 1 + 1 + 1 + 1 + 1 + 1 + 1)
                              (s.trace ++ [Event.checkoutBranch ("fix/issue-" ++ toString issue.number) (Exc.ok true)] ++ [Event.createBranch ("fix/issue-" ++ toString issue.number) (Exc.ok cb)] ++ [Event.implementFix (Exc.ok impl)] ++ [Event.commitChanges (commitMessageText issue analysisText) (Exc.ok false)] ++ [Event.implementFixRetry retryNote (Exc.ok retry)] ++ [Event.commitChanges (commitMessageText issue analysisText) (Exc.ok false)] ++ [Event.addComment noChangesComment (Exc.ok cm)])
                            with ⟨r, hmr⟩ | hmr <;> simp only [hmr] at h
                          rw [Prod.mk.injEq] at h
                          obtain ⟨h1, h2⟩ := h
                          subst h1
                          subst h2
                          refine ⟨?_, ?_, ?_, ?_, ?_, ?_, ?_⟩
                          · first
                            | exact List.prefix_append _ _
                            | (simp only [List.append_assoc]; exact List.prefix_append _ _)
                          · simp [analyzeCount, Event.isAnalyze, List.countP_append]
                          · intro tb labs ar hm
                            simp only [List.append_assoc, List.mem_append] at hm
                            rcases hm with hm | hm
                            · exact hm
                            · simp at hm
                          · simp [implAttemptCount, Event.isImplAttempt, List.countP_append, hi]
                          · intro rest hx
                            simp [retryCount, Event.isRetry, List.countP_append, hr]
                          · intro hx
                            refine ⟨?_, ?_, ?_⟩
                            · simp [Event.isCommentWith, List.any_append]
                            · simp [pushPRCount, Event.isPushOrPR, List.countP_append, hp]
                            · intro _
                              rfl
                          · intro _
                            simp [marksProcessed, Event.isAddLabelNamed, BOT_PROCESSED_LABEL, List.any_append]
                          rw [Prod.mk.injEq] at h
                          obtain ⟨h1, h2⟩ := h
                          subst h1
                          subst h2
                          refine ⟨?_, ?_, ?_, ?_, ?_, ?_, ?_⟩
                          · first
                            | exact List.prefix_append _ _
                            | (simp only [List.append_assoc]; exact List.prefix_append _ _)
                          · simp [analyzeCount, Event.isAnalyze, List.countP_append]
                          · intro tb labs ar hm
                            simp only [List.append_assoc, List.mem_append] at hm
                            rcases hm with hm | hm
                            · exact hm
                            · simp at hm
                          · simp [implAttemptCount, Event.isImplAttempt, List.countP_append, hi]
                          · intro rest hx
                            simp [retryCount, Event.isRetry, List.countP_append, hr]
                          · intro hx
                            refine ⟨?_, ?_, ?_⟩
                            · simp [Event.isCommentWith, List.any_append]
                            · simp [pushPRCount, Event.isPushOrPR, List.countP_append, hp]
                            · intro hne
                              exact absurd rfl hne
                          · intro hne
                            exact absurd rfl hne
                      | true =>
                        simp only [P.bind, gcall, pure_eq, Bool.not_true, Bool.not_false, Bool.false_eq_true, Bool.true_eq_false, if_false, if_true, ite_false, ite_true, hc2] at h
                        obtain ⟨pfx8, ana8, com8, imp8, ret8, mem8, mark8⟩ :=
                          stepS8S9_facts env issue analysisText impl.message _ o s' h
                        refine ⟨?_, ?_, ?_, ?_, ?_, ?_, mark8⟩
                        · refine List.IsPrefix.trans ?_ pfx8
                          first
                          | exact List.prefix_append _ _
                          | (simp only [List.append_assoc]; exact List.prefix_append _ _)
                        · rw [ana8]
                          simp [analyzeCount, Event.isAnalyze, List.countP_append]
                        · intro tb labs ar hm
                          have hm2 := mem8 tb labs ar hm
                          simp only [List.append_assoc, List.mem_append] at hm2
                          rcases hm2 with hm2 | hm2
                          · exact hm2
                          · simp at hm2
                        · rw [imp8]
                          simp [implAttemptCount, Event.isImplAttempt, List.countP_append, hi]
                        · intro rest hx
                          rw [ret8]
                          simp [retryCount, Event.isRetry, List.countP_append, hr]
                        · intro hx
                          rw [com8] at hx
                          simp [commitResults, List.filterMap_append, hc] at hx

theorem stepS3toS9_facts (env : Env) (issue : IssueData) (analysisText : String)
    (suggestedLabels : List String) :
    ∀ (s : PState) (o : POut Bool) (s' : PState),
      stepS3toS9 env issue analysisText suggestedLabels s = (o, s') →
      commitResults s.trace = [] →
      retryCount s.trace = 0 →
      implAttemptCount s.trace = 0 →
      pushPRCount s.trace = 0 →
      s.trace <+: s'.trace
      ∧ analyzeCount s'.trace = analyzeCount s.trace
      ∧ (∀ (tb : String) (labs : List String) (ar : AnalysisResult),
          Event.analyzeIssue tb labs (Exc.ok ar) ∈ s'.trace →
          Event.analyzeIssue tb labs (Exc.ok ar) ∈ s.trace)
      ∧ implAttemptCount s'.trace ≤ 2
      ∧ (∀ rest : List (Exc Bool), commitResults s'.trace = Exc.ok false :: rest → retryCount s'.trace = 1)
      ∧ (commitResults s'.trace = [Exc.ok false, Exc.ok false] →
          s'.trace.any (Event.isCommentWith noChangesComment) = true
          ∧ pushPRCount s'.trace = 0
          ∧ (o ≠ POut.exn → o = POut.ret false))
      ∧ (o ≠ POut.exn → marksProcessed s'.trace = true) := by
  intro s o s' h hc hr hi hp
  simp only [commitResults] at hc
  simp only [retryCount] at hr
  simp only [implAttemptCount] at hi
  simp only [pushPRCount] at hp
  unfold stepS3toS9 at h
  simp only [bind_eq, P.bind] at h
  rcases hll : labelLoop env suggestedLabels s with ⟨oll, sll⟩
  simp only [hll] at h
  obtain ⟨hovL, pfxL, anaL, comL, impL, retL, pushL, ccL, memL⟩ :=
    labelLoop_facts env suggestedLabels s oll sll hll
  simp only [analyzeCount] at anaL
  simp only [commitResults] at comL
  simp only [implAttemptCount] at impL
  simp only [retryCount] at retL
  simp only [pushPRCount] at pushL
  rcases hovL with hov | hov
  case inr =>
    subst hov
    rw [Prod.mk.injEq] at h
    obtain ⟨h1, h2⟩ := h
    subst h1
    subst h2
    refine ⟨pfxL, ?_, memL, ?_, ?_, ?_, fun hne => absurd rfl hne⟩
    · simp only [analyzeCount]
      exact anaL
    · simp only [implAttemptCount]
      rw [impL, hi]
      omega
    · intro rest hx
      simp only [commitResults] at hx
      rw [comL, hc] at hx
      cases hx
    · intro hx
      simp only [commitResults] at hx
      rw [comL, hc] at hx
      cases hx
  case inl =>
    subst hov
    simp only [P.bind, gcall, pure_eq] at h
    cases hcl : env.cloneRepository sll.k with
    | exn =>
      simp only [hcl] at h
      rw [Prod.mk.injEq] at h
      obtain ⟨h1, h2⟩ := h
      subst h1
      subst h2
      refine ⟨?_, ?_, ?_, ?_, ?_, ?_, fun hne => absurd rfl hne⟩
      · exact List.IsPrefix.trans pfxL (List.prefix_append _ _)
      · simp only [analyzeCount]
        simp [Event.isAnalyze, List.countP_append, anaL]
      · intro tb labs ar hm
        simp only [List.mem_append] at hm
        rcases hm with hm | hm
        · exact memL tb labs ar hm
        · simp at hm
      · simp only [implAttemptCount]
        simp [Event.isImplAttempt, List.countP_append, impL, hi]
      · intro rest hx
        simp only [commitResults] at hx
        simp [List.filterMap_append, comL, hc] at hx
      · intro hx
        simp only [commitResults] at hx
        simp [List.filterMap_append, comL, hc] at hx
    | ok repoPath =>
      cases repoPath with
      | none =>
        simp only [hcl] at h
        rcases markAndReturn_cases (α := Bool) env false (sll.k + 1)
            (sll.trace ++ [Event.cloneRepository (Exc.ok none)])
          with ⟨r, hmr⟩ | hmr <;> simp only [hmr] at h <;>
          rw [Prod.mk.injEq] at h <;>
          obtain ⟨h1, h2⟩ := h <;>
          subst h1 <;>
          subst h2
        · refine ⟨?_, ?_, ?_, ?_, ?_, ?_, ?_⟩
          · refine List.IsPrefix.trans pfxL ?_
            simp only [List.append_assoc]
            exact List.prefix_append _ _
          · simp only [analyzeCount]
            simp [Event.isAnalyze, List.countP_append, anaL]
          · intro tb labs ar hm
            simp only [List.append_assoc, List.mem_append] at hm
            rcases hm with hm | hm
            · exact memL tb labs ar hm
            · simp at hm
          · simp only [implAttemptCount]
            simp [Event.isImplAttempt, List.countP_append, impL, hi]
          · intro rest hx
            simp only [commitResults] at hx
            simp [List.filterMap_append, comL, hc] at hx
          · intro hx
            simp only [commitResults] at hx
            simp [List.filterMap_append, comL, hc] at hx
          · intro _
            simp [marksProcessed, Event.isAddLabelNamed, BOT_PROCESSED_LABEL, List.any_append]
        · refine ⟨?_, ?_, ?_, ?_, ?_, ?_, fun hne => absurd rfl hne⟩
          · refine List.IsPrefix.trans pfxL ?_
            simp only [List.append_assoc]
            exact List.prefix_append _ _
          · simp only [analyzeCount]
            simp [Event.isAnalyze, List.countP_append, anaL]
          · intro tb labs ar hm
            simp only [List.append_assoc, List.mem_append] at hm
            rcases hm with hm | hm
            · exact memL tb labs ar hm
            · simp at hm
          · simp only [implAttemptCount]
            simp [Event.isImplAttempt, List.countP_append, impL, hi]
          · intro rest hx
            simp only [commitResults] at hx
            simp [List.filterMap_append, comL, hc] at hx
          · intro hx
            simp only [commitResults] at hx
            simp [List.filterMap_append, comL, hc] at hx
      | some p =>
        simp only [hcl] at h
        rw [pyFinally] at h
        rcases hb : stepS5toS9 env issue analysisText
            ⟨sll.k + 1, sll.trace ++ [Event.cloneRepository (Exc.ok (some p))]⟩ with ⟨o5, s5⟩
        simp only [hb] at h
        obtain ⟨pfx5, ana5, mem5, imp5, ret5, c65, mark5⟩ :=
          stepS5toS9_facts env issue analysisText _ o5 s5 hb
            (by simp [commitResults, List.filterMap_append, comL, hc])
            (by simp [retryCount, Event.isRetry, List.countP_append, retL, hr])
            (by simp [implAttemptCount, Event.isImplAttempt, List.countP_append, impL, hi])
            (by simp [pushPRCount, Event.isPushOrPR, List.countP_append, pushL, hp])
        have pfxAll : s.trace <+: s5.trace :=
          List.IsPrefix.trans pfxL (List.IsPrefix.trans (List.prefix_append _ _) pfx5)
        have anaAll : analyzeCount s5.trace = List.countP Event.isAnalyze s.trace := by
          rw [ana5]
          simp only [analyzeCount]
          simp [Event.isAnalyze, List.countP_append, anaL]
        have memAll : ∀ (tb : String) (labs : List String) (ar : AnalysisResult),
            Event.analyzeIssue tb labs (Exc.ok ar) ∈ s5.trace →
            Event.analyzeIssue tb labs (Exc.ok ar) ∈ s.trace := by
          intro tb labs ar hm
          have hm2 := mem5 tb labs ar hm
          simp only [List.mem_append] at hm2
          rcases hm2 with hm2 | hm2
          · exact memL tb labs ar hm2
          · simp at hm2
        simp only [bind_eq, P.bind, gcall, pure_eq] at h
        cases hclean : env.cleanupRepository s5.k with
        | ok u =>
          simp only [hclean] at h
          rw [Prod.mk.injEq] at h
          obtain ⟨h1, h2⟩ := h
          subst h1
          subst h2
          refine ⟨?_, ?_, ?_, ?_, ?_, ?_, ?_⟩
          · exact List.IsPrefix.trans pfxAll (List.prefix_append _ _)
          · simp only [analyzeCount]
            simp only [analyzeCount] at anaAll
            simp [Event.isAnalyze, List.countP_append, anaAll]
          · intro tb labs ar hm
            simp only [List.mem_append] at hm
            rcases hm with hm | hm
            · exact memAll tb labs ar hm
            · simp at hm
          · simp only [implAttemptCount]
            simp only [implAttemptCount] at imp5
            simp [Event.isImplAttempt, List.countP_append, imp5]
          · intro rest hx
            simp only [commitResults] at hx
            simp only [List.filterMap_append] at hx
            simp only [List.filterMap] at hx
            rw [List.append_nil] at hx
            have := ret5 rest (by simpa [commitResults] using hx)
            simp only [retryCount] at this ⊢
            simp [Event.isRetry, List.countP_append, this]
          · intro hx
            simp only [commitResults] at hx
            simp only [List.filterMap_append] at hx
            simp only [List.filterMap] at hx
            rw [List.append_nil] at hx
            obtain ⟨hany, hpush, hopart⟩ := c65 (by simpa [commitResults] using hx)
            refine ⟨?_, ?_, hopart⟩
            · simp [List.any_append, hany]
            · simp only [pushPRCount]
              simp only [pushPRCount] at hpush
              simp [Event.isPushOrPR, List.countP_append, hpush]
          · intro hne
            have := mark5 hne
            simp only [marksProcessed] at this ⊢
            simp [List.any_append, this]
        | exn =>
          simp only [hclean] at h
          rw [Prod.mk.injEq] at h
          obtain ⟨h1, h2⟩ := h
          subst h1
          subst h2
          refine ⟨?_, ?_, ?_, ?_, ?_, ?_, fun hne => absurd rfl hne⟩
          · exact List.IsPrefix.trans pfxAll (List.prefix_append _ _)
          · simp only [analyzeCount]
            simp only [analyzeCount] at anaAll
            simp [Event.isAnalyze, List.countP_append, anaAll]
          · intro tb labs ar hm
            simp only [List.mem_append] at hm
            rcases hm with hm | hm
            · exact memAll tb labs ar hm
            · simp at hm
          · simp only [implAttemptCount]
            simp only [implAttemptCount] at imp5
            simp [Event.isImplAttempt, List.countP_append, imp5]
          · intro rest hx
            simp only [commitResults] at hx
            simp only [List.filterMap_append] at hx
            simp only [List.filterMap] at hx
            rw [List.append_nil] at hx
            have := ret5 rest (by simpa [commitResults] using hx)
            simp only [retryCount] at this ⊢
            simp [Event.isRetry, List.countP_append, this]
          · intro hx
            simp only [commitResults] at hx
            simp only [List.filterMap_append] at hx
            simp only [List.filterMap] at hx
            rw [List.append_nil] at hx
            obtain ⟨hany, hpush, _⟩ := c65 (by simpa [commitResults] using hx)
            refine ⟨?_, ?_, fun hne => absurd rfl hne⟩
            · simp [List.any_append, hany]
            · simp only [pushPRCount]
              simp only [pushPRCount] at hpush
              simp [Event.isPushOrPR, List.countP_append, hpush]

theorem freshAnalysisPath_facts (env : Env) (issue : IssueData) (taskBody : String) :
    ∀ (s : PState) (o : POut Bool) (s' : PState),
      freshAnalysisPath env issue taskBody s = (o, s') →
      commitResults s.trace = [] →
      retryCount s.trace = 0 →
      implAttemptCount s.trace = 0 →
      pushPRCount s.trace = 0 →
      cloneCheckoutCount s.trace = 0 →
      (∀ (tb : String) (labs : List String) (ar : AnalysisResult),
        Event.analyzeIssue tb labs (Exc.ok ar) ∈ s.trace → False) →
      s.trace <+: s'.trace
      ∧ implAttemptCount s'.trace ≤ 2
      ∧ (∀ rest : List (Exc Bool), commitResults s'.trace = Exc.ok false :: rest → retryCount s'.trace = 1)
      ∧ (commitResults s'.trace = [Exc.ok false, Exc.ok false] →
          s'.trace.any (Event.isCommentWith noChangesComment) = true
          ∧ pushPRCount s'.trace = 0
          ∧ (o ≠ POut.exn → o = POut.ret false))
      ∧ (o ≠ POut.exn → marksProcessed s'.trace = true)
      ∧ (∀ (tb : String) (labs : List String) (ar : AnalysisResult),
          Event.analyzeIssue tb labs (Exc.ok ar) ∈ s'.trace → ar.insufficient_info = true →
          s'.trace.any (Event.isCommentWith (insufficientInfoComment (stripSentinel ar.analysis))) = true
          ∧ cloneCheckoutCount s'.trace = 0
          ∧ implAttemptCount s'.trace = 0
          ∧ pushPRCount s'.trace = 0
          ∧ (o ≠ POut.exn →
              o = POut.ret false
              ∧ s'.trace.any (Event.isAddLabelNamed "needs-more-info") = true
              ∧ marksProcessed s'.trace = true)) := by
  intro s o s' h hc hr hi hp hcc hana
  simp only [commitResults] at hc
  simp only [retryCount] at hr
  simp only [implAttemptCount] at hi
  simp only [pushPRCount] at hp
  simp only [cloneCheckoutCount] at hcc
  unfold freshAnalysisPath at h
  simp only [bind_eq, P.bind, gcall, pure_eq] at h
  cases hgl : env.getRepositoryLabels s.k with
  | exn =>
    simp only [P.bind, gcall, pure_eq, Bool.not_true, Bool.not_false, Bool.false_eq_true, Bool.true_eq_false, if_false, if_true, ite_false, ite_true, hgl] at h
    rw [Prod.mk.injEq] at h
    obtain ⟨h1, h2⟩ := h
    subst h1
    subst h2
    refine ⟨?_, ?_, ?_, ?_, ?_, ?_⟩
    · first
      | exact List.prefix_append _ _
      | (simp only [List.append_assoc]; exact List.prefix_append _ _)
    · simp [implAttemptCount, Event.isImplAttempt, List.countP_append, hi]
    · intro rest hx
      simp [commitResults, List.filterMap_append, hc] at hx
    · intro hx
      simp [commitResults, List.filterMap_append, hc] at hx
    · intro hne
      exact absurd rfl hne
    · intro tb2 labs2 ar2 hm h5
      simp only [List.append_assoc, List.mem_append] at hm
      rcases hm with hm | hm
      · exact (hana _ _ _ hm).elim
      · simp at hm
  | ok labs =>
    simp only [P.bind, gcall, pure_eq, Bool.not_true, Bool.not_false, Bool.false_eq_true, Bool.true_eq_false, if_false, if_true, ite_false, ite_true, hgl] at h
    cases har : env.analyzeIssue (s.k + 1) taskBody labs with
    | exn =>
      simp only [P.bind, gcall, pure_eq, Bool.not_true, Bool.not_false, Bool.false_eq_true, Bool.true_eq_false, if_false, if_true, ite_false, ite_true, har] at h
      rw [Prod.mk.injEq] at h
      obtain ⟨h1, h2⟩ := h
      subst h1
      subst h2
      refine ⟨?_, ?_, ?_, ?_, ?_, ?_⟩
      · first
        | exact List.prefix_append _ _
        | (simp only [List.append_assoc]; exact List.prefix_append _ _)
      · simp [implAttemptCount, Event.isImplAttempt, List.countP_append, hi]
      · intro rest hx
        simp [commitResults, List.filterMap_append, hc] at hx
      · intro hx
        simp [commitResults, List.filterMap_append, hc] at hx
      · intro hne
        exact absurd rfl hne
      · intro tb2 labs2 ar2 hm h5
        simp only [List.append_assoc, List.mem_append] at hm
        rcases hm with hm | hm
        · exact (hana _ _ _ hm).elim
        · simp at hm
    | ok ar =>
      simp only [P.bind, gcall, pure_eq, Bool.not_true, Bool.not_false, Bool.false_eq_true, Bool.true_eq_false, if_false, if_true, ite_false, ite_true, har] at h
      cases hins : ar.insufficient_info with
      | true =>
        simp only [P.bind, gcall, pure_eq, Bool.not_true, Bool.not_false, Bool.false_eq_true, Bool.true_eq_false, if_false, if_true, ite_false, ite_true, hins] at h
        cases hcm : env.addComment (s.k + 1 + 1) (insufficientInfoComment (stripSentinel ar.analysis)) with
        | exn =>
          simp only [P.bind, gcall, pure_eq, Bool.not_true, Bool.not_false, Bool.false_eq_true, Bool.true_eq_false, if_false, if_true, ite_false, ite_true, hcm] at h
          rw [Prod.mk.injEq] at h
          obtain ⟨h1, h2⟩ := h
          subst h1
          subst h2
          refine ⟨?_, ?_, ?_, ?_, ?_, ?_⟩
          · first
            | exact List.prefix_append _ _
            | (simp only [List.append_assoc]; exact List.prefix_append _ _)
          · simp [implAttemptCount, Event.isImplAttempt, List.countP_append, hi]
          · intro rest hx
            simp [commitResults, List.filterMap_append, hc] at hx
          · intro hx
            simp [commitResults, List.filterMap_append, hc] at hx
          · intro hne
            exact absurd rfl hne
          · intro tb2 labs2 ar2 hm h5
            simp only [List.append_assoc, List.mem_append] at hm
            rcases hm with hm | hm
            · exact (hana _ _ _ hm).elim
            · simp at hm
              obtain ⟨-, -, rfl⟩ := hm
              refine ⟨?_, ?_, ?_, ?_, ?_⟩
              · simp [Event.isCommentWith, List.any_append]
              · simp [cloneCheckoutCount, Event.isCloneOrCheckout, List.countP_append, hcc]
              · simp [implAttemptCount, Event.isImplAttempt, List.countP_append, hi]
              · simp [pushPRCount, Event.isPushOrPR, List.countP_append, hp]
              · intro hne
                exact absurd rfl hne
        | ok cb1 =>
          simp only [P.bind, gcall, pure_eq, Bool.not_true, Bool.not_false, Bool.false_eq_true, Bool.true_eq_false, if_false, if_true, ite_false, ite_true, hcm] at h
          cases hnm : env.addLabel (s.k + 1 + 1 + 1) "needs-more-info" with
          | exn =>
            simp only [P.bind, gcall, pure_eq, Bool.not_true, Bool.not_false, Bool.false_eq_true, Bool.true_eq_false, if_false, if_true, ite_false, ite_true, hnm] at h
            rw [Prod.mk.injEq] at h
            obtain ⟨h1, h2⟩ := h
            subst h1
            subst h2
            refine ⟨?_, ?_, ?_, ?_, ?_, ?_⟩
            · first
              | exact List.prefix_append _ _
              | (simp only [List.append_assoc]; exact List.prefix_append _ _)
            · simp [implAttemptCount, Event.isImplAttempt, List.countP_append, hi]
            · intro rest hx
              simp [commitResults, List.filterMap_append, hc] at hx
            · intro hx
              simp [commitResults, List.filterMap_append, hc] at hx
            · intro hne
              exact absurd rfl hne
            · intro tb2 labs2 ar2 hm h5
              simp only [List.append_assoc, List.mem_append] at hm
              rcases hm with hm | hm
              · exact (hana _ _ _ hm).elim
              · simp at hm
                obtain ⟨-, -, rfl⟩ := hm
                refine ⟨?_, ?_, ?_, ?_, ?_⟩
                · simp [Event.isCommentWith, List.any_append]
                · simp [cloneCheckoutCount, Event.isCloneOrCheckout, List.countP_append, hcc]
                · simp [implAttemptCount, Event.isImplAttempt, List.countP_append, hi]
                · simp [pushPRCount, Event.isPushOrPR, List.countP_append, hp]
                · intro hne
                  exact absurd rfl hne
          | ok nb =>
            simp only [P.bind, gcall, pure_eq, Bool.not_true, Bool.not_false, Bool.false_eq_true, Bool.true_eq_false, if_false, if_true, ite_false, ite_true, hnm] at h
            rcases markAndReturn_cases (α := PUnit) env false (s.k + 1 + 1 + 1 + 1)
                (s.trace ++ [Event.getRepositoryLabels (Exc.ok labs)] ++ [Event.analyzeIssue taskBody labs (Exc.ok ar)] ++
                 [Event.addComment (insufficientInfoComment (stripSentinel ar.analysis)) (Exc.ok cb1)] ++
                 [Event.addLabel "needs-more-info" (Exc.ok nb)])
              with ⟨r, hmr⟩ | hmr <;> simp only [hmr] at h
            rw [Prod.mk.injEq] at h
            obtain ⟨h1, h2⟩ := h
            subst h1
            subst h2
            refine ⟨?_, ?_, ?_, ?_, ?_, ?_⟩
            · first
              | exact List.prefix_append _ _
              | (simp only [List.append_assoc]; exact List.prefix_append _ _)
            · simp [implAttemptCount, Event.isImplAttempt, List.countP_append, hi]
            · intro rest hx
              simp [commitResults, List.filterMap_append, hc] at hx
            · intro hx
              simp [commitResults, List.filterMap_append, hc] at hx
            · intro _
              simp [marksProcessed, Event.isAddLabelNamed, BOT_PROCESSED_LABEL, List.any_append]
            · intro tb2 labs2 ar2 hm h5
              simp only [List.append_assoc, List.mem_append] at hm
              rcases hm with hm | hm
              · exact (hana _ _ _ hm).elim
              · simp at hm
                obtain ⟨-, -, rfl⟩ := hm
                refine ⟨?_, ?_, ?_, ?_, ?_⟩
                · simp [Event.isCommentWith, List.any_append]
                · simp [cloneCheckoutCount, Event.isCloneOrCheckout, List.countP_append, hcc]
                · simp [implAttemptCount, Event.isImplAttempt, List.countP_append, hi]
                · simp [pushPRCount, Event.isPushOrPR, List.countP_append, hp]
                · intro _
                  refine ⟨rfl, ?_, ?_⟩
                  · simp [Event.isAddLabelNamed, List.any_append]
                  · simp [marksProcessed, Event.isAddLabelNamed, BOT_PROCESSED_LABEL, List.any_append]
            rw [Prod.mk.injEq] at h
            obtain ⟨h1, h2⟩ := h
            subst h1
            subst h2
            refine ⟨?_, ?_, ?_, ?_, ?_, ?_⟩
            · first
              | exact List.prefix_append _ _
              | (simp only [List.append_assoc]; exact List.prefix_append _ _)
            · simp [implAttemptCount, Event.isImplAttempt, List.countP_append, hi]
            · intro rest hx
              simp [commitResults, List.filterMap_append, hc] at hx
            · intro hx
              simp [commitResults, List.filterMap_append, hc] at hx
            · intro hne
              exact absurd rfl hne
            · intro tb2 labs2 ar2 hm h5
              simp only [List.append_assoc, List.mem_append] at hm
              rcases hm with hm | hm
              · exact (hana _ _ _ hm).elim
              · simp at hm
                obtain ⟨-, -, rfl⟩ := hm
                refine ⟨?_, ?_, ?_, ?_, ?_⟩
                · simp [Event.isCommentWith, List.any_append]
                · simp [cloneCheckoutCount, Event.isCloneOrCheckout, List.countP_append, hcc]
                · simp [implAttemptCount, Event.isImplAttempt, List.countP_append, hi]
                · simp [pushPRCount, Event.isPushOrPR, List.countP_append, hp]
                · intro hne
                  exact absurd rfl hne
      | false =>
        simp only [P.bind, gcall, pure_eq, Bool.not_true, Bool.not_false, Bool.false_eq_true, Bool.true_eq_false, if_false, if_true, ite_false, ite_true, hins] at h
        cases hcomp : ar.completed with
        | false =>
          simp only [P.bind, gcall, pure_eq, Bool.not_true, Bool.not_false, Bool.false_eq_true, Bool.true_eq_false, if_false, if_true, ite_false, ite_true, hcomp] at h
          rcases markAndReturn_cases (α := PUnit) env false (s.k + 1 + 1)
              (s.trace ++ [Event.getRepositoryLabels (Exc.ok labs)] ++ [Event.analyzeIssue taskBody labs (Exc.ok ar)])
            with ⟨r, hmr⟩ | hmr <;> simp only [hmr] at h
          rw [Prod.mk.injEq] at h
          obtain ⟨h1, h2⟩ := h
          subst h1
          subst h2
          refine ⟨?_, ?_, ?_, ?_, ?_, ?_⟩
          · first
            | exact List.prefix_append _ _
            | (simp only [List.append_assoc]; exact List.prefix_append _ _)
          · simp [implAttemptCount, Event.isImplAttempt, List.countP_append, hi]
          · intro rest hx
            simp [commitResults, List.filterMap_append, hc] at hx
          · intro hx
            simp [commitResults, List.filterMap_append, hc] at hx
          · intro _
            simp [marksProcessed, Event.isAddLabelNamed, BOT_PROCESSED_LABEL, List.any_append]
          · intro tb2 labs2 ar2 hm h5
            simp only [List.append_assoc, List.mem_append] at hm
            rcases hm with hm | hm
            · exact (hana _ _ _ hm).elim
            · simp at hm
              obtain ⟨-, -, rfl⟩ := hm
              rw [hins] at h5
              cases h5
          rw [Prod.mk.injEq] at h
          obtain ⟨h1, h2⟩ := h
          subst h1
          subst h2
          refine ⟨?_, ?_, ?_, ?_, ?_, ?_⟩
          · first
            | exact List.prefix_append _ _
            | (simp only [List.append_assoc]; exact List.prefix_append _ _)
          · simp [implAttemptCount, Event.isImplAttempt, List.countP_append, hi]
          · intro rest hx
            simp [commitResults, List.filterMap_append, hc] at hx
          · intro hx
            simp [commitResults, List.filterMap_append, hc] at hx
          · intro hne
            exact absurd rfl hne
          · intro tb2 labs2 ar2 hm h5
            simp only [List.append_assoc, List.mem_append] at hm
            rcases hm with hm | hm
            · exact (hana _ _ _ hm).elim
            · simp at hm
              obtain ⟨-, -, rfl⟩ := hm
              rw [hins] at h5
              cases h5
        | true =>
          simp only [P.bind, gcall, pure_eq, Bool.not_true, Bool.not_false, Bool.false_eq_true, Bool.true_eq_false, if_false, if_true, ite_false, ite_true, hcomp] at h
          cases hcm2 : env.addComment (s.k + 1 + 1) (analysisComment ar.analysis) with
          | exn =>
            simp only [P.bind, gcall, pure_eq, Bool.not_true, Bool.not_false, Bool.false_eq_true, Bool.true_eq_false, if_false, if_true, ite_false, ite_true, hcm2] at h
            rw [Prod.mk.injEq] at h
            obtain ⟨h1, h2⟩ := h
            subst h1
            subst h2
            refine ⟨?_, ?_, ?_, ?_, ?_, ?_⟩
            · first
              | exact List.prefix_append _ _
              | (simp only [List.append_assoc]; exact List.prefix_append _ _)
            · simp [implAttemptCount, Event.isImplAttempt, List.countP_append, hi]
            · intro rest hx
              simp [commitResults, List.filterMap_append, hc] at hx
            · intro hx
              simp [commitResults, List.filterMap_append, hc] at hx
            · intro hne
              exact absurd rfl hne
            · intro tb2 labs2 ar2 hm h5
              simp only [List.append_assoc, List.mem_append] at hm
              rcases hm with hm | hm
              · exact (hana _ _ _ hm).elim
              · simp at hm
                obtain ⟨-, -, rfl⟩ := hm
                rw [hins] at h5
                cases h5
          | ok cok =>
            cases cok with
            | false =>
              simp only [P.bind, gcall, pure_eq, Bool.not_true, Bool.not_false, Bool.false_eq_true, Bool.true_eq_false, if_false, if_true, ite_false, ite_true, hcm2] at h
              rcases markAndReturn_cases (α := PUnit) env false (s.k + 1 + 1 + 1)
                  (s.trace ++ [Event.getRepositoryLabels (Exc.ok labs)] ++ [Event.analyzeIssue taskBody labs (Exc.ok ar)] ++
                   [Event.addComment (analysisComment ar.analysis) (Exc.ok false)])
                with ⟨r, hmr⟩ | hmr <;> simp only [hmr] at h
              rw [Prod.mk.injEq] at h
              obtain ⟨h1, h2⟩ := h
              subst h1
              subst h2
              refine ⟨?_, ?_, ?_, ?_, ?_, ?_⟩
              · first
                | exact List.prefix_append _ _
                | (simp only [List.append_assoc]; exact List.prefix_append _ _)
              · simp [implAttemptCount, Event.isImplAttempt, List.countP_append, hi]
              · intro rest hx
                simp [commitResults, List.filterMap_append, hc] at hx
              · intro hx
                simp [commitResults, List.filterMap_append, hc] at hx
              · intro _
                simp [marksProcessed, Event.isAddLabelNamed, BOT_PROCESSED_LABEL, List.any_append]
              · intro tb2 labs2 ar2 hm h5
                simp only [List.append_assoc, List.mem_append] at hm
                rcases hm with hm | hm
                · exact (hana _ _ _ hm).elim
                · simp at hm
                  obtain ⟨-, -, rfl⟩ := hm
                  rw [hins] at h5
                  cases h5
              rw [Prod.mk.injEq] at h
              obtain ⟨h1, h2⟩ := h
              subst h1
              subst h2
              refine ⟨?_, ?_, ?_, ?_, ?_, ?_⟩
              · first
                | exact List.prefix_append _ _
                | (simp only [List.append_assoc]; exact List.prefix_append _ _)
              · simp [implAttemptCount, Event.isImplAttempt, List.countP_append, hi]
              · intro rest hx
                simp [commitResults, List.filterMap_append, hc] at hx
              · intro hx
                simp [commitResults, List.filterMap_append, hc] at hx
              · intro hne
                exact absurd rfl hne
              · intro tb2 labs2 ar2 hm h5
                simp only [List.append_assoc, List.mem_append] at hm
                rcases hm with hm | hm
                · exact (hana _ _ _ hm).elim
                · simp at hm
                  obtain ⟨-, -, rfl⟩ := hm
                  rw [hins] at h5
                  cases h5
            | true =>
              simp only [P.bind, gcall, pure_eq, Bool.not_true, Bool.not_false, Bool.false_eq_true, Bool.true_eq_false, if_false, if_true, ite_false, ite_true, hcm2] at h
              obtain ⟨pfx3, ana3, mem3, imp3, ret3, c63, mark3⟩ :=
                stepS3toS9_facts env issue ar.analysis ar.suggested_labels _ o s' h
                  (by simp [commitResults, List.filterMap_append, hc])
                  (by simp [retryCount, Event.isRetry, List.countP_append, hr])
                  (by simp [implAttemptCount, Event.isImplAttempt, List.countP_append, hi])
                  (by simp [pushPRCount, Event.isPushOrPR, List.countP_append, hp])
              refine ⟨?_, imp3, ret3, c63, mark3, ?_⟩
              · refine List.IsPrefix.trans ?_ pfx3
                simp only [List.append_assoc]
                exact List.prefix_append _ _
              · intro tb2 labs2 ar2 hm h5
                have hm2 := mem3 tb2 labs2 ar2 hm
                simp only [List.append_assoc, List.mem_append] at hm2
                rcases hm2 with hm2 | hm2
                · exact (hana _ _ _ hm2).elim
                · simp at hm2
                  obtain ⟨-, -, rfl⟩ := hm2
                  rw [hins] at h5
                  cases h5

theorem processIssueBody_facts (env : Env) (issue : IssueData) :
    ∀ (s : PState) (o : POut Bool) (s' : PState),
      processIssueBody env issue s = (o, s') →
      commitResults s.trace = [] →
      retryCount s.trace = 0 →
      implAttemptCount s.trace = 0 →
      pushPRCount s.trace = 0 →
      cloneCheckoutCount s.trace = 0 →
      (∀ (tb : String) (labs : List String) (ar : AnalysisResult),
        Event.analyzeIssue tb labs (Exc.ok ar) ∈ s.trace → False) →
      s.trace <+: s'.trace
      ∧ implAttemptCount s'.trace ≤ 2
      ∧ (∀ rest : List (Exc Bool), commitResults s'.trace = Exc.ok false :: rest → retryCount s'.trace = 1)
      ∧ (commitResults s'.trace = [Exc.ok false, Exc.ok false] →
          s'.trace.any (Event.isCommentWith noChangesComment) = true
          ∧ pushPRCount s'.trace = 0
          ∧ (o ≠ POut.exn → o = POut.ret false))
      ∧ (o ≠ POut.exn → marksProcessed s'.trace = true)
      ∧ (∀ (tb : String) (labs : List String) (ar : AnalysisResult),
          Event.analyzeIssue tb labs (Exc.ok ar) ∈ s'.trace → ar.insufficient_info = true →
          s'.trace.any (Event.isCommentWith (insufficientInfoComment (stripSentinel ar.analysis))) = true
          ∧ cloneCheckoutCount s'.trace = 0
          ∧ implAttemptCount s'.trace = 0
          ∧ pushPRCount s'.trace = 0
          ∧ (o ≠ POut.exn →
              o = POut.ret false
              ∧ s'.trace.any (Event.isAddLabelNamed "needs-more-info") = true
              ∧ marksProcessed s'.trace = true)) := by
  intro s o s' h hc hr hi hp hcc hana
  simp only [commitResults] at hc
  simp only [retryCount] at hr
  simp only [implAttemptCount] at hi
  simp only [pushPRCount] at hp
  simp only [cloneCheckoutCount] at hcc
  unfold processIssueBody at h
  simp only [bind_eq, P.bind, gcall, pure_eq] at h
  cases hge : env.getExistingAnalysis s.k with
  | exn =>
    simp only [hge] at h
    rw [Prod.mk.injEq] at h
    obtain ⟨h1, h2⟩ := h
    subst h1
    subst h2
    refine ⟨List.prefix_append _ _, ?_, ?_, ?_, fun hne => absurd rfl hne, ?_⟩
    · simp [implAttemptCount, Event.isImplAttempt, List.countP_append, hi]
    · intro rest hx
      simp [commitResults, List.filterMap_append, hc] at hx
    · intro hx
      simp [commitResults, List.filterMap_append, hc] at hx
    · intro tb2 labs2 ar2 hm h5
      simp only [List.mem_append] at hm
      rcases hm with hm | hm
      · exact (hana _ _ _ hm).elim
      · simp at hm
  | ok existing =>
    cases existing with
    | none =>
      simp only [hge] at h
      obtain ⟨pfxF, impF, retF, c6F, markF, c5F⟩ :=
        freshAnalysisPath_facts env issue issue.body _ o s' h
                  (by simp [commitResults, List.filterMap_append, hc])
                  (by simp [retryCount, Event.isRetry, List.countP_append, hr])
                  (by simp [implAttemptCount, Event.isImplAttempt, List.countP_append, hi])
                  (by simp [pushPRCount, Event.isPushOrPR, List.countP_append, hp])
                  (by simp [cloneCheckoutCount, Event.isCloneOrCheckout, List.countP_append, hcc])
                  (by
                    intro tb2 labs2 ar2 hm
                    simp only [List.mem_append] at hm
                    rcases hm with hm | hm
                    · exact hana _ _ _ hm
                    · simp at hm)
      exact ⟨List.IsPrefix.trans (List.prefix_append _ _) pfxF, impF, retF, c6F, markF, c5F⟩
    | some ea =>
      cases hnew : ea.has_new_user_comments.getD false with
      | false =>
        simp only [P.bind, gcall, pure_eq, Bool.not_true, Bool.not_false, Bool.false_eq_true, Bool.true_eq_false, if_false, if_true, ite_false, ite_true, hge, hnew] at h
        obtain ⟨pfx3, ana3, mem3, imp3, ret3, c63, mark3⟩ :=
          stepS3toS9_facts env issue ea.analysis ea.suggested_labels _ o s' h
            (by simp [commitResults, List.filterMap_append, hc])
            (by simp [retryCount, Event.isRetry, List.countP_append, hr])
            (by simp [implAttemptCount, Event.isImplAttempt, List.countP_append, hi])
            (by simp [pushPRCount, Event.isPushOrPR, List.countP_append, hp])
        refine ⟨List.IsPrefix.trans (List.prefix_append _ _) pfx3, imp3, ret3, c63, mark3, ?_⟩
        · intro tb2 labs2 ar2 hm h5
          have hm2 := mem3 tb2 labs2 ar2 hm
          simp only [List.mem_append] at hm2
          rcases hm2 with hm2 | hm2
          · exact (hana _ _ _ hm2).elim
          · simp at hm2
      | true =>
        simp only [P.bind, gcall, pure_eq, Bool.not_true, Bool.not_false, Bool.false_eq_true, Bool.true_eq_false, if_false, if_true, ite_false, ite_true, hge, hnew] at h
        obtain ⟨pfxF, impF, retF, c6F, markF, c5F⟩ :=
          freshAnalysisPath_facts env issue
            (issue.body ++ newCommentsText (ea.new_user_comments.getD [])) _ o s' h
                  (by simp [commitResults, List.filterMap_append, hc])
                  (by simp [retryCount, Event.isRetry, List.countP_append, hr])
                  (by simp [implAttemptCount, Event.isImplAttempt, List.countP_append, hi])
                  (by simp [pushPRCount, Event.isPushOrPR, List.countP_append, hp])
                  (by simp [cloneCheckoutCount, Event.isCloneOrCheckout, List.countP_append, hcc])
                  (by
                    intro tb2 labs2 ar2 hm
                    simp only [List.mem_append] at hm
                    rcases hm with hm | hm
                    · exact hana _ _ _ hm
                    · simp at hm)
        exact ⟨List.IsPrefix.trans (List.prefix_append _ _) pfxF, impF, retF, c6F, markF, c5F⟩

/-- How `process_issue`'s result and trace relate to its body's run: a normal
or early-return outcome is passed through, an exception yields `false` after
one more terminal-marker attempt. -/
theorem process_issue_eq_of_body (env : Env) (issue : IssueData) (ob : POut Bool) (sb : PState)
    (hb : processIssueBody env issue initialState = (ob, sb)) :
    (ob ≠ POut.exn ∧ (process_issue env issue).2 = sb
      ∧ ((∃ b, ob = POut.val b ∧ (process_issue env issue).1 = b)
         ∨ (∃ b, ob = POut.ret b ∧ (process_issue env issue).1 = b)))
    ∨ (ob = POut.exn ∧ (process_issue env issue).1 = false
        ∧ ∃ r, (process_issue env issue).2.trace =
            sb.trace ++ [Event.addLabel BOT_PROCESSED_LABEL r]) := by
  cases ob with
  | val b =>
    left
    refine ⟨by simp, ?_, Or.inl ⟨b, rfl, ?_⟩⟩ <;>
      (unfold process_issue; rw [hb])
  | ret b =>
    left
    refine ⟨by simp, ?_, Or.inr ⟨b, rfl, ?_⟩⟩ <;>
      (unfold process_issue; rw [hb])
  | exn =>
    right
    refine ⟨rfl, ?_, ?_⟩
    · unfold process_issue
      rw [hb]
    · cases hl : env.addLabel sb.k BOT_PROCESSED_LABEL with
      | ok r =>
        refine ⟨Exc.ok r, ?_⟩
        unfold process_issue
        rw [hb]
        simp [addLabelBot, gcall, hl]
      | exn =>
        refine ⟨Exc.exn, ?_⟩
        unfold process_issue
        rw [hb]
        simp [addLabelBot, gcall, hl]

/-- The zero-hypotheses of `processIssueBody_facts` hold at `initialState`. -/
theorem body_facts_at_start (env : Env) (issue : IssueData) (ob : POut Bool) (sb : PState)
    (hb : processIssueBody env issue initialState = (ob, sb)) :
    initialState.trace <+: sb.trace
    ∧ implAttemptCount sb.trace ≤ 2
    ∧ (∀ rest : List (Exc Bool), commitResults sb.trace = Exc.ok false :: rest → retryCount sb.trace = 1)
    ∧ (commitResults sb.trace = [Exc.ok false, Exc.ok false] →
        sb.trace.any (Event.isCommentWith noChangesComment) = true
        ∧ pushPRCount sb.trace = 0
        ∧ (ob ≠ POut.exn → ob = POut.ret false))
    ∧ (ob ≠ POut.exn → marksProcessed sb.trace = true)
    ∧ (∀ (tb : String) (labs : List String) (ar : AnalysisResult),
        Event.analyzeIssue tb labs (Exc.ok ar) ∈ sb.trace → ar.insufficient_info = true →
        sb.trace.any (Event.isCommentWith (insufficientInfoComment (stripSentinel ar.analysis))) = true
        ∧ cloneCheckoutCount sb.trace = 0
        ∧ implAttemptCount sb.trace = 0
        ∧ pushPRCount sb.trace = 0
        ∧ (ob ≠ POut.exn →
            ob = POut.ret false
            ∧ sb.trace.any (Event.isAddLabelNamed "needs-more-info") = true
            ∧ marksProcessed sb.trace = true)) :=
  processIssueBody_facts env issue initialState ob sb hb rfl rfl rfl rfl rfl
    (by intro tb labs ar hm; simp [initialState] at hm)

/-- Shared derivation: whenever the first `commit_changes` call of a run
reported `False`, exactly one retry implementation call was made. -/
theorem commit_false_first_forces_single_retry (env : Env) (issue : IssueData) :
    (commitResults (process_issue env issue).2.trace).head? = some (Exc.ok false) →
    retryCount (process_issue env issue).2.trace = 1 := by
  intro hx
  rcases hb : processIssueBody env issue initialState with ⟨ob, sb⟩
  obtain ⟨-, -, hret, -, -, -⟩ := body_facts_at_start env issue ob sb hb
  rcases process_issue_eq_of_body env issue ob sb hb with ⟨-, h2, -⟩ | ⟨-, -, r, h2⟩
  · rw [h2] at hx ⊢
    cases hcr : commitResults sb.trace with
    | nil => rw [hcr] at hx; cases hx
    | cons a rest =>
      rw [hcr] at hx
      simp only [List.head?] at hx
      rw [Option.some_inj] at hx
      subst hx
      exact hret rest hcr
  · rw [h2] at hx ⊢
    have hsame : commitResults (sb.trace ++ [Event.addLabel BOT_PROCESSED_LABEL r]) =
        commitResults sb.trace := by
      simp [commitResults, List.filterMap_append]
    rw [hsame] at hx
    have hsame2 : retryCount (sb.trace ++ [Event.addLabel BOT_PROCESSED_LABEL r]) =
        retryCount sb.trace := by
      simp [retryCount, Event.isRetry, List.countP_append]
    rw [hsame2]
    cases hcr : commitResults sb.trace with
    | nil => rw [hcr] at hx; cases hx
    | cons a rest =>
      rw [hcr] at hx
      simp only [List.head?] at hx
      rw [Option.some_inj] at hx
      subst hx
      exact hret rest hcr

/-- C2: `process_issue` never lets an exception escape — its interpreter is a
total function, the body's exception outcome is converted to a `false` result
by the handler at check_issues.py lines 246-253 — and on every exit path,
exception paths included, an application of the terminal marker label
`bot-processed` is attempted (best-effort on the fault path). -/
theorem process_issue_never_raises_and_always_marks (env : Env) (issue : IssueData) :
    marksProcessed (process_issue env issue).2.trace = true
    ∧ ((processIssueBody env issue initialState).1 = POut.exn →
        (process_issue env issue).1 = false) := by
  rcases hb : processIssueBody env issue initialState with ⟨ob, sb⟩
  obtain ⟨-, -, -, -, hmark, -⟩ := body_facts_at_start env issue ob sb hb
  rcases process_issue_eq_of_body env issue ob sb hb with ⟨hne, h2, -⟩ | ⟨hoe, hres, r, h2⟩
  · constructor
    · rw [h2]
      exact hmark hne
    · intro hexn
      simp only [] at hexn
      exact absurd hexn hne
  · constructor
    · rw [h2]
      simp [marksProcessed, Event.isAddLabelNamed, BOT_PROCESSED_LABEL, List.any_append]
    · intro _
      exact hres

/-- C2 witness: a run whose very first gateway call raises still returns
`false` and still attempts the terminal marker. -/
theorem process_issue_never_raises_and_always_marks_witness :
    marksProcessed (process_issue c2Env sampleIssue).2.trace = true
    ∧ (process_issue c2Env sampleIssue).1 = false :=
  ⟨(process_issue_never_raises_and_always_marks c2Env sampleIssue).1,
   (process_issue_never_raises_and_always_marks c2Env sampleIssue).2 (by decide)⟩

/-- C4: per run of `process_issue` there are never more than two
implementation attempts; a first commit reporting no staged changes forces
exactly one retry call; and when both commits report no changes, the run
returns `false` with the no-changes comment and the terminal marker
attempted, and with no push and no pull-request call. -/
theorem implementation_single_retry_bound (env : Env) (issue : IssueData) :
    implAttemptCount (process_issue env issue).2.trace ≤ 2
    ∧ ((commitResults (process_issue env issue).2.trace).head? = some (Exc.ok false) →
        retryCount (process_issue env issue).2.trace = 1)
    ∧ (commitResults (process_issue env issue).2.trace = [Exc.ok false, Exc.ok false] →
        (process_issue env issue).1 = false
        ∧ (process_issue env issue).2.trace.any (Event.isCommentWith noChangesComment) = true
        ∧ marksProcessed (process_issue env issue).2.trace = true
        ∧ pushPRCount (process_issue env issue).2.trace = 0) := by
  rcases hb : processIssueBody env issue initialState with ⟨ob, sb⟩
  obtain ⟨-, himp, -, hc6, hmark, -⟩ := body_facts_at_start env issue ob sb hb
  refine ⟨?_, commit_false_first_forces_single_retry env issue, ?_⟩
  · rcases process_issue_eq_of_body env issue ob sb hb with ⟨-, h2, -⟩ | ⟨-, -, r, h2⟩
    · rw [h2]
      exact himp
    · rw [h2]
      simp only [implAttemptCount, List.countP_append]
      simp only [implAttemptCount] at himp
      simp [Event.isImplAttempt, himp]
  · intro hx
    rcases process_issue_eq_of_body env issue ob sb hb with ⟨hne, h2, hval⟩ | ⟨hoe, hres, r, h2⟩
    · rw [h2] at hx ⊢
      obtain ⟨hany, hpush, hop⟩ := hc6 hx
      have hrf := hop hne
      subst hrf
      rcases hval with ⟨b, hbv, -⟩ | ⟨b, hbv, hresv⟩
      · cases hbv
      · refine ⟨?_, hany, hmark hne, hpush⟩
        rw [hresv]
        injection hbv with hbb
        exact hbb.symm
    · rw [h2] at hx ⊢
      have hsame : commitResults (sb.trace ++ [Event.addLabel BOT_PROCESSED_LABEL r]) =
          commitResults sb.trace := by
        simp [commitResults, List.filterMap_append]
      rw [hsame] at hx
      obtain ⟨hany, hpush, -⟩ := hc6 hx
      refine ⟨hres, ?_, ?_, ?_⟩
      · simp [List.any_append, hany]
      · simp [marksProcessed, Event.isAddLabelNamed, BOT_PROCESSED_LABEL, List.any_append]
      · simp only [pushPRCount, List.countP_append]
        simp only [pushPRCount] at hpush
        simp [Event.isPushOrPR, hpush]

/-- C4 witness: in the environment where both commit attempts stage nothing,
the run makes exactly one retry, posts the no-changes comment, marks the
issue terminal, returns `false`, and never pushes or opens a PR. -/
theorem implementation_single_retry_bound_witness :
    implAttemptCount (process_issue c4Env sampleIssue).2.trace ≤ 2
    ∧ retryCount (process_issue c4Env sampleIssue).2.trace = 1
    ∧ ((process_issue c4Env sampleIssue).1 = false
       ∧ (process_issue c4Env sampleIssue).2.trace.any (Event.isCommentWith noChangesComment) = true
       ∧ marksProcessed (process_issue c4Env sampleIssue).2.trace = true
       ∧ pushPRCount (process_issue c4Env sampleIssue).2.trace = 0) :=
  ⟨(implementation_single_retry_bound c4Env sampleIssue).1,
   (implementation_single_retry_bound c4Env sampleIssue).2.1 (by decide),
   (implementation_single_retry_bound c4Env sampleIssue).2.2 (by decide)⟩

/-- C5: whenever a run's freshly performed analysis signalled insufficient
information (an `analyze_issue` call returning with the flag set appears in
the trace) and the run raised no exception, `process_issue` returned `false`
after attempting the insufficient-information comment — whose text is the
analysis with the `INSUFFICIENT_INFO` sentinel stripped — the
`needs-more-info` label and the terminal marker, and without any clone,
checkout, implementation, push, or pull-request call. -/
theorem insufficient_info_short_circuit (env : Env) (issue : IssueData)
    (tb : String) (labs : List String) (ar : AnalysisResult) :
    Event.analyzeIssue tb labs (Exc.ok ar) ∈ (process_issue env issue).2.trace →
    ar.insufficient_info = true →
    (processIssueBody env issue initialState).1 ≠ POut.exn →
    (process_issue env issue).1 = false
    ∧ (process_issue env issue).2.trace.any
        (Event.isCommentWith (insufficientInfoComment (stripSentinel ar.analysis))) = true
    ∧ (process_issue env issue).2.trace.any (Event.isAddLabelNamed "needs-more-info") = true
    ∧ marksProcessed (process_issue env issue).2.trace = true
    ∧ cloneCheckoutCount (process_issue env issue).2.trace = 0
    ∧ implAttemptCount (process_issue env issue).2.trace = 0
    ∧ pushPRCount (process_issue env issue).2.trace = 0 := by
  intro hmem hins hnoexn
  rcases hb : processIssueBody env issue initialState with ⟨ob, sb⟩
  rw [hb] at hnoexn
  obtain ⟨-, -, -, -, -, hc5⟩ := body_facts_at_start env issue ob sb hb
  rcases process_issue_eq_of_body env issue ob sb hb with ⟨hne, h2, hval⟩ | ⟨hoe, -, -, -⟩
  · rw [h2] at hmem ⊢
    obtain ⟨hany, hccz, himpz, hpushz, hop⟩ := hc5 tb labs ar hmem hins
    obtain ⟨hrf, hnmi, hmk⟩ := hop hne
    subst hrf
    rcases hval with ⟨b, hbv, -⟩ | ⟨b, hbv, hresv⟩
    · cases hbv
    · refine ⟨?_, hany, hnmi, hmk, hccz, himpz, hpushz⟩
      rw [hresv]
      injection hbv with hbb
      exact hbb.symm
  · exact absurd hoe hnoexn

/-- C5 witness: the theorem applied at the insufficient-information
environment. -/
theorem insufficient_info_short_circuit_witness :
    (process_issue c5Env sampleIssue).1 = false
    ∧ (process_issue c5Env sampleIssue).2.trace.any
        (Event.isCommentWith (insufficientInfoComment "詳細が不足しています")) = true
    ∧ (process_issue c5Env sampleIssue).2.trace.any (Event.isAddLabelNamed "needs-more-info") = true
    ∧ marksProcessed (process_issue c5Env sampleIssue).2.trace = true
    ∧ cloneCheckoutCount (process_issue c5Env sampleIssue).2.trace = 0
    ∧ implAttemptCount (process_issue c5Env sampleIssue).2.trace = 0
    ∧ pushPRCount (process_issue c5Env sampleIssue).2.trace = 0 :=
  insufficient_info_short_circuit c5Env sampleIssue "It crashes on start" ["bug"]
    (arInsufficient "INSUFFICIENT_INFO 詳細が不足しています")
    (by decide) (by decide) (by decide)

/-- C10: `commit_changes` is a total boolean function of the git command
results (`_run_git_command` converts timeouts and subprocess exceptions to
exit code 1, so nothing raises); it returns `false` exactly when staging
fails, nothing is staged, or the commit command fails — so a clean no-op and
a genuine failure are indistinguishable in its result — and in
`process_issue` a first `False` commit result is always routed into exactly
one retry call. -/
theorem commit_changes_false_on_noop_and_failure :
    (∀ r : GitCmdResults,
      commit_changes r = false ↔ (r.addAllExit ≠ 0 ∨ r.diffStagedExit = 0 ∨ r.commitExit ≠ 0))
    ∧ commit_changes ⟨0, 0, 0, 0, 0⟩ = false
    ∧ commit_changes ⟨0, 0, 1, 1, 0⟩ = false
    ∧ commit_changes ⟨0, 0, 0, 1, 1⟩ = false
    ∧ (∀ (env : Env) (issue : IssueData),
        (commitResults (process_issue env issue).2.trace).head? = some (Exc.ok false) →
        retryCount (process_issue env issue).2.trace = 1) := by
  refine ⟨?_, by decide, by decide, by decide, commit_false_first_forces_single_retry⟩
  intro r
  unfold commit_changes
  by_cases h1 : r.addAllExit = 0 <;> by_cases h2 : r.diffStagedExit = 0 <;>
    by_cases h3 : r.commitExit = 0 <;> simp [h1, h2, h3]

/-- C10 witness: the equivalence applied at a clean no-op run, and the
retry routing applied at a double-no-op environment. -/
theorem commit_changes_false_on_noop_and_failure_witness :
    ((0 : Nat) ≠ 0 ∨ (0 : Nat) = 0 ∨ (0 : Nat) ≠ 0)
    ∧ retryCount (process_issue c10Env sampleIssue).2.trace = 1 :=
  ⟨(commit_changes_false_on_noop_and_failure.1 ⟨0, 0, 0, 0, 0⟩).mp (by decide),
   commit_changes_false_on_noop_and_failure.2.2.2.2 c10Env sampleIssue (by decide)⟩

end IssuesChecker
